import Mathlib

/-! Spoopify: the taste-profile aggregation of `server.js`.

A shallow embedding of the `/callback` handler of `src/server.js` and of its helpers
`getBasic` and `getImageUrl`.

Conventions of the embedding.

* A JavaScript `Map` is an insertion-ordered association list (`JMap`): `set` on a key that
  is present replaces the value in place, `set` on a new key appends the entry at the end,
  iteration (`entries`, `keys`, `values`) walks the list from its head.
* A JavaScript number is an exact rational (`ℚ`).  Where the source would produce a value
  that is not a number (`undefined`, `NaN`), the embedded function returns `none`.
* A `for (let i = 0; i < xs.length; i++)` loop over `xs[i]` is a recursion over the list
  `xs` that carries the index `i`; a `for (const x of xs)` loop is a left fold.
-/

set_option autoImplicit false

namespace Spoopify

/-! ## JavaScript `Map` -/

/-- Insertion-ordered association list standing for a JavaScript `Map`. -/
abbrev JMap (κ ν : Type) := List (κ × ν)

namespace JMap

variable {κ ν : Type} [DecidableEq κ]

/-- The method `Map.prototype.get`: the value stored at the key, `none` for `undefined`. -/
def get : JMap κ ν → κ → Option ν
  | [], _ => none
  | (k', v') :: rest, k => if k' = k then some v' else get rest k

/-- The method `Map.prototype.has`. -/
def has (m : JMap κ ν) (k : κ) : Bool := (get m k).isSome

/-- The method `Map.prototype.set`: overwrite in place, or append a new entry. -/
def set : JMap κ ν → κ → ν → JMap κ ν
  | [], k, v => [(k, v)]
  | (k', v') :: rest, k, v => if k' = k then (k, v) :: rest else (k', v') :: set rest k v

/-- The method `Map.prototype.keys`, in insertion order. -/
def keys (m : JMap κ ν) : List κ := m.map Prod.fst

/-- The method `Map.prototype.values`, in insertion order. -/
def values (m : JMap κ ν) : List ν := m.map Prod.snd

/-- The method `Map.prototype.size`. -/
def size (m : JMap κ ν) : Nat := m.length

end JMap

/-! ## Data model: the objects returned by the music service -/

/-- An image variant of an album or an artist. -/
structure Image where
  url : String
  deriving DecidableEq, Repr

/-- A full artist object: an item of the top-artists list, or of a `/v1/artists` reply. -/
structure Artist where
  id : String
  name : String
  popularity : ℚ
  genres : List String
  images : List Image
  deriving DecidableEq, Repr

/-- The artist reference carried by a track (`track.artists[j]`): it has no genres. -/
structure TrackArtist where
  id : String
  name : String
  deriving DecidableEq, Repr

/-- The album of a track. -/
structure Album where
  images : List Image
  deriving DecidableEq, Repr

/-- An item of the top-tracks list. -/
structure Track where
  id : String
  name : String
  popularity : ℚ
  artists : List TrackArtist
  album : Album
  deriving DecidableEq, Repr

/-! ## Helpers of `server.js` -/

/-- The function `getBasic` (lines 311-323). -/
def getBasic (score : ℚ) : String :=
  if score ≥ 80 then "White girl"
  else if score ≥ 60 then "Average"
  else if score ≥ 40 then "Indie kid"
  else if score ≥ 20 then "Weirdo"
  else "Apologies for interrupting your grindset"

/-- The function `getImageUrl` (lines 339-347). -/
def getImageUrl (images : List Image) : String :=
  match images with
  | _ :: second :: _ => second.url
  | [only] => only.url
  | [] => "https://daneeee.blob.core.windows.net/images/noimage.jpg"

/-- The constant `LIMIT` (line 34). -/
def LIMIT : Nat := 50

/-! ## The per-request state of the handler (lines 115-126) -/

/-- The mutable variables of the `/callback` handler. -/
structure State where
  artistWeights : JMap String ℚ
  genreWeights : JMap String ℚ
  artistGenres : JMap String (List String)
  imgs : List String
  max : ℚ
  totalPopularity : ℚ
  minPopTrack : ℚ
  minPopTrackId : Option Track
  minPopArtist : ℚ
  minPopArtistId : Option Artist
  deriving DecidableEq, Repr

/-- The initial values of lines 115-126. -/
def State.init : State where
  artistWeights := []
  genreWeights := []
  artistGenres := []
  imgs := []
  max := 0
  totalPopularity := 0
  minPopTrack := 101
  minPopTrackId := none
  minPopArtist := 101
  minPopArtistId := none

/-! ## Pass 1: the artist loop (lines 137-152) -/

/-- Lines 146-150: one genre tag of the artist at rank `i`. -/
def addArtistGenre (numOfArtists i : Nat) (genreWeights : JMap String ℚ) (genre : String) :
    JMap String ℚ :=
  match JMap.get genreWeights genre with
  | some old => JMap.set genreWeights genre (old + numOfArtists - i)
  | none => JMap.set genreWeights genre (numOfArtists - i)

/-- Lines 138-151: the body of the artist loop at index `i`. -/
def artistStep (numOfArtists i : Nat) (st : State) (artist : Artist) : State :=
  let st1 : State :=
    if artist.popularity < st.minPopArtist then
      { st with minPopArtist := artist.popularity, minPopArtistId := some artist }
    else st
  let st2 : State :=
    { st1 with artistGenres := JMap.set st1.artistGenres artist.id artist.genres }
  { st2 with
    genreWeights := artist.genres.foldl (addArtistGenre numOfArtists i) st2.genreWeights }

/-- Lines 137-152: `for (let i = 0; i < numOfArtists; i++)`, entered at index `i` with the
artists from `artists[i]` on still to visit. -/
def artistLoop (numOfArtists : Nat) : Nat → List Artist → State → State
  | _, [], st => st
  | i, artist :: rest, st => artistLoop numOfArtists (i + 1) rest (artistStep numOfArtists i st artist)

/-- Pass 1 on a fresh state. -/
def pass1 (artists : List Artist) : State :=
  artistLoop artists.length 0 artists State.init

/-! ## Pass 2: the track loop (lines 155-196) -/

/-- The weight `(BIG_WEIGHT - i) / track.artists.length` of lines 176, 178, 190 and 192.  It
is computed inside the loop over `track.artists` only, hence for a track with at least one
artist: the divisor is never zero where the source divides. -/
def trackShare (BIG_WEIGHT i : Nat) (track : Track) : ℚ :=
  ((BIG_WEIGHT : ℚ) - i) / track.artists.length

/-- Lines 173-186: one recorded genre of a contributing artist whose genres are known. -/
def addTrackGenre (BIG_WEIGHT i : Nat) (track : Track) (st : State) (genre : String) : State :=
  let weight : ℚ :=
    match JMap.get st.genreWeights genre with
    | some old => old + trackShare BIG_WEIGHT i track
    | none => trackShare BIG_WEIGHT i track
  { st with
    max := if weight > st.max then weight else st.max
    genreWeights := JMap.set st.genreWeights genre weight }

/-- Lines 189-193: a contributing artist whose genres are not known. -/
def addResidual (BIG_WEIGHT i : Nat) (track : Track) (artistWeights : JMap String ℚ)
    (id : String) : JMap String ℚ :=
  match JMap.get artistWeights id with
  | some old => JMap.set artistWeights id (old + trackShare BIG_WEIGHT i track)
  | none => JMap.set artistWeights id (trackShare BIG_WEIGHT i track)

/-- Lines 171-194: the body of `for (const artist of track.artists)`. -/
def trackArtistStep (BIG_WEIGHT i : Nat) (track : Track) (st : State) (artist : TrackArtist) :
    State :=
  match JMap.get st.artistGenres artist.id with
  | some genres => genres.foldl (addTrackGenre BIG_WEIGHT i track) st
  | none => { st with artistWeights := addResidual BIG_WEIGHT i track st.artistWeights artist.id }

/-- Lines 156-195: the body of the track loop at index `i`. -/
def trackStep (BIG_WEIGHT i : Nat) (st : State) (track : Track) : State :=
  let st1 : State := { st with totalPopularity := st.totalPopularity + track.popularity }
  let st2 : State :=
    if i < 6 then { st1 with imgs := st1.imgs ++ [getImageUrl track.album.images] } else st1
  let st3 : State :=
    if track.popularity < st2.minPopTrack then
      { st2 with minPopTrack := track.popularity, minPopTrackId := some track }
    else st2
  track.artists.foldl (trackArtistStep BIG_WEIGHT i track) st3

/-- Lines 155-196: `for (let i = 0; i < numOfTracks; i++)`, entered at index `i` with the
tracks from `tracks[i]` on still to visit. -/
def trackLoop (BIG_WEIGHT : Nat) : Nat → List Track → State → State
  | _, [], st => st
  | i, track :: rest, st => trackLoop BIG_WEIGHT (i + 1) rest (trackStep BIG_WEIGHT i st track)

/-- Pass 2, with `BIG_WEIGHT = numOfTracks * 2` (line 113). -/
def pass2 (tracks : List Track) (st : State) : State :=
  trackLoop (tracks.length * 2) 0 tracks st

/-- Lines 115-196: both passes of the aggregation on a fresh state. -/
def aggregate (artists : List Artist) (tracks : List Track) : State :=
  pass2 tracks (pass1 artists)

/-! ## The lookups for the residual artists (lines 199-211) -/

/-- The method `Array.prototype.slice(start, end)` for `0 ≤ start ≤ end`. -/
def slice {α : Type} (xs : List α) (start stop : Nat) : List α :=
  (xs.drop start).take (stop - start)

/-- Lines 203-207: the `while` loop.  A request is represented by the list of ids it asks
for.  Returns the requests pushed so far and the final `queryCount`. -/
def batchLoop (remainingArtists : List String) (queryCount : Nat)
    (promises : List (List String)) : List (List String) × Nat :=
  if remainingArtists.length - queryCount > LIMIT then
    batchLoop remainingArtists (queryCount + LIMIT)
      (promises ++ [slice remainingArtists queryCount (queryCount + LIMIT)])
  else (promises, queryCount)
termination_by remainingArtists.length - queryCount
decreasing_by
  simp only [LIMIT] at *
  omega

/-- Lines 199-211: the requests issued for the residual, in issue order. -/
def lookupBatches (artistWeights : JMap String ℚ) : List (List String) :=
  if JMap.size artistWeights > 0 then
    let remainingArtists := JMap.keys artistWeights
    let looped := batchLoop remainingArtists 0 []
    looped.1 ++ [slice remainingArtists looped.2 remainingArtists.length]
  else []

/-! ## The resolver fold (lines 217-235) -/

/-- Lines 220-232: one genre tag of a returned artist.  `none` when `artistWeights` has no
entry for the artist, where the source computes with `undefined`. -/
def foldGenre (id : String) (st : State) (genre : String) : Option State :=
  match JMap.get st.artistWeights id with
  | none => none
  | some residual =>
    let weight : ℚ :=
      match JMap.get st.genreWeights genre with
      | some old => old + residual
      | none => residual
    some { st with
      max := if weight > st.max then weight else st.max
      genreWeights := JMap.set st.genreWeights genre weight }

/-- Lines 219-233: `for (const genre of artist.genres)`. -/
def foldArtist (st : State) (artist : Artist) : Option State :=
  artist.genres.foldlM (foldGenre artist.id) st

/-- Lines 218-234: `for (const artist of arr.data.artists)`. -/
def foldArr (st : State) (arr : List Artist) : Option State :=
  arr.foldlM foldArtist st

/-- Lines 217-235: `for (const arr of artistArrs)`. -/
def resolverFold (st : State) (artistArrs : List (List Artist)) : Option State :=
  artistArrs.foldlM foldArr st

/-! ## The projection onto opposite genres (lines 238-259) -/

/-- A value of the `opps` map (lines 251-255). -/
structure OppItem where
  genre : String
  weight : ℚ
  url : String
  deriving DecidableEq, Repr

/-- A value of `genreMap` (line 41): `[opps, weights, links]`. -/
structure GenreData where
  opps : List String
  weights : List ℚ
  links : List String
  deriving DecidableEq, Repr

/-- Lines 245-256: the body of the inner loop for the opposite genre `genre = genreData[0][i]`
with `multiplier = genreData[1][i]` and `link = genreData[2][i]`. -/
def oppStep (value : ℚ) (opps : JMap String OppItem) (genre : String) (multiplier : ℚ)
    (link : String) : JMap String OppItem :=
  match JMap.get opps genre with
  | some oppItem =>
    JMap.set opps genre { oppItem with weight := oppItem.weight + multiplier * value }
  | none =>
    JMap.set opps genre
      { genre := genre
        weight := multiplier * value
        url := "https://p.scdn.co/mp3-preview/" ++ link }

/-- Lines 244-257: `for (i = 0; i < genreData[0].length; i++)`, walking the three arrays of
the row in lockstep from index `i` on.  A missing `genreData[1][i]` makes the product not a
number (`none`); a missing `genreData[2][i]` is concatenated as the text `undefined`. -/
def oppRowLoop (value : ℚ) :
    List String → List ℚ → List String → JMap String OppItem → Option (JMap String OppItem)
  | [], _, _, opps => some opps
  | _ :: _, [], _, _ => none
  | genre :: genres, multiplier :: multipliers, links, opps =>
    oppRowLoop value genres multipliers links.tail
      (oppStep value opps genre multiplier (links.head?.getD "undefined"))

/-- Lines 239-258: the body of `for (const [key, value] of genreWeights.entries())`. -/
def oppGenre (genreMap : JMap String GenreData) (max : ℚ) (opps : JMap String OppItem)
    (entry : String × ℚ) : Option (JMap String OppItem) :=
  if entry.2 * 16 ≥ max * 10 && JMap.has genreMap entry.1 then
    match JMap.get genreMap entry.1 with
    | some genreData => oppRowLoop entry.2 genreData.opps genreData.weights genreData.links opps
    | none => some opps
  else some opps

/-- Lines 238-259: the loop over `genreWeights.entries()`, from the given `opps`. -/
def oppLoop (genreMap : JMap String GenreData) (max : ℚ) (genreWeights : JMap String ℚ)
    (opps : JMap String OppItem) : Option (JMap String OppItem) :=
  genreWeights.foldlM (oppGenre genreMap max) opps

/-- Line 263: `Array.from(opps.values()).sort((a, b) => b.weight - a.weight).slice(0, 6)`.
`Array.prototype.sort` is a stable sort that puts `a` before `b` when the comparator is
negative; it is rendered by the stable `List.mergeSort`. -/
def hates (opps : JMap String OppItem) : List OppItem :=
  slice ((JMap.values opps).mergeSort (fun a b => decide (b.weight - a.weight ≤ 0))) 0 6

/-! ## The outcome of the request (lines 105-107 and 261-274) -/

/-- The argument of `res.render('yours', ...)` (lines 261-270). -/
structure View where
  loves : List String
  hates : List OppItem
  score : ℚ
  desc : String
  trackUrl : String
  trackName : String
  artistUrl : String
  artistName : String
  deriving DecidableEq, Repr

/-- A response written by the handler. -/
inductive Response where
  | sendFile (file : String)
  | render (view : View)
  deriving DecidableEq, Repr

/-- Lines 264-265: the score `totalPopularity / numOfTracks` of the rendered page.  With no
track the source divides zero by zero; the page is not rendered then, see `renderResult`. -/
def score (st : State) (numOfTracks : Nat) : ℚ :=
  st.totalPopularity / numOfTracks

/-- Lines 261-274: the response written once the lookups have resolved and the resolver fold
and the projection have run.  Reading `.album` or `.images` of an `undefined` least-popular
track or artist throws, and the `catch` of line 271 sends the error page. -/
def renderResult (st : State) (numOfTracks : Nat) (opps : JMap String OppItem) : Response :=
  match st.minPopTrackId, st.minPopArtistId with
  | some minPopTrackId, some minPopArtistId =>
    Response.render
      { loves := st.imgs
        hates := hates opps
        score := score st numOfTracks
        desc := getBasic (score st numOfTracks)
        trackUrl := getImageUrl minPopTrackId.album.images
        trackName := minPopTrackId.name
        artistUrl := getImageUrl minPopArtistId.images
        artistName := minPopArtistId.name }
  | _, _ => Response.sendFile "error.html"

/-- Line 214: `Promise.all(promises)`, a request being the list of ids it asks for.  It
resolves with all the replies, in order, and rejects (`none`) as soon as one request fails. -/
def promiseAll (fetchArtists : List String → Option (List Artist)) :
    List (List String) → Option (List (List Artist))
  | [] => some []
  | ids :: promises =>
    match fetchArtists ids, promiseAll fetchArtists promises with
    | some arr, some artistArrs => some (arr :: artistArrs)
    | _, _ => none

/-- Lines 105-274: the handler from the moment the top tracks and top artists have arrived.
`fetchArtists ids` is the reply of the music service to the lookup of `ids` (`none` when the
request fails).  The result lists the responses written, in order; it is `none` when a value
that is not a number enters the computation. -/
def callback (genreMap : JMap String GenreData) (fetchArtists : List String → Option (List Artist))
    (tracks : List Track) (artists : List Artist) : Option (List Response) :=
  let first : List Response :=
    if tracks.length == 0 then [Response.sendFile "nodata.html"] else []
  let st := aggregate artists tracks
  match promiseAll fetchArtists (lookupBatches st.artistWeights) with
  | none => some (first ++ [Response.sendFile "error.html"])
  | some artistArrs =>
    match resolverFold st artistArrs with
    | none => none
    | some resolved =>
      match oppLoop genreMap resolved.max resolved.genreWeights [] with
      | none => none
      | some opps => some (first ++ [renderResult resolved tracks.length opps])

/-! ## The resolver fold for any lookup result (lines 217-235) -/

/-- JavaScript `+` on values that may fail to be numbers (`none` for `undefined` and `NaN`):
the sum is not a number as soon as one operand is not. -/
def jsAdd (a b : Option ℚ) : Option ℚ :=
  match a, b with
  | some x, some y => some (x + y)
  | _, _ => none

/-- Lines 220-232 for any returned artist, residual key or not.  The weights stored in
`genreWeights` may now fail to be numbers; `weight > max` is false for such a weight, so `max`
stays a number. -/
def foldGenreJs (artistWeights : JMap String ℚ) (id : String)
    (acc : JMap String (Option ℚ) × ℚ) (genre : String) : JMap String (Option ℚ) × ℚ :=
  let weight : Option ℚ :=
    match JMap.get acc.1 genre with
    | some old => jsAdd old (JMap.get artistWeights id)
    | none => JMap.get artistWeights id
  (JMap.set acc.1 genre weight,
    match weight with
    | some w => if w > acc.2 then w else acc.2
    | none => acc.2)

/-- Lines 217-235 for any lookup result: the pair of `genreWeights` and `max` after the three
nested loops. -/
def resolverFoldJs (artistWeights : JMap String ℚ) (artistArrs : List (List Artist))
    (acc : JMap String (Option ℚ) × ℚ) : JMap String (Option ℚ) × ℚ :=
  artistArrs.foldl
    (fun acc arr =>
      arr.foldl (fun acc artist => artist.genres.foldl (foldGenreJs artistWeights artist.id) acc)
        acc)
    acc

/-- A map of numbers seen as a map of values that may fail to be numbers. -/
def liftWeights (m : JMap String ℚ) : JMap String (Option ℚ) :=
  m.map fun e => (e.1, some e.2)

/-! ## Binary64 arithmetic and the weighting in binary64 -/

/-- Rounding of a rational to the nearest integer, a tie going to the even neighbour. -/
def roundHalfEven (q : ℚ) : ℤ :=
  let f : ℤ := ⌊q⌋
  if q - f < 1 / 2 then f
  else if 1 / 2 < q - f then f + 1
  else if f % 2 = 0 then f else f + 1

/-- The binary64 number nearest to a real number, a tie going to the even significand: 53
significant bits at the exponent of the number, and the fixed exponent `-1074` below the
normal range.  Results of magnitude `2 ^ 1024` and more, which binary64 turns into an
infinity, are outside the model. -/
def toDouble (q : ℚ) : ℚ :=
  if q = 0 then 0
  else
    let e : ℤ := max (Int.log 2 |q| - 52) (-1074)
    (roundHalfEven (q / (2 : ℚ) ^ e) : ℚ) * (2 : ℚ) ^ e

/-- JavaScript `a + b` on numbers: the exact sum, rounded to binary64. -/
def fadd (a b : ℚ) : ℚ := toDouble (a + b)

/-- JavaScript `a * b` on numbers: the exact product, rounded to binary64. -/
def fmul (a b : ℚ) : ℚ := toDouble (a * b)

/-- JavaScript `a / b` on numbers, `b` not zero: the exact quotient, rounded to binary64. -/
def fdiv (a b : ℚ) : ℚ := toDouble (a / b)

/-- The weight `(BIG_WEIGHT - i) / track.artists.length` of lines 176, 178, 190 and 192 as
binary64 computes it: the difference of the two integers is exact, the quotient is rounded. -/
def trackShare64 (BIG_WEIGHT i : Nat) (track : Track) : ℚ :=
  fdiv ((BIG_WEIGHT : ℚ) - i) track.artists.length

/-- Lines 173-186 in binary64. -/
def addTrackGenre64 (BIG_WEIGHT i : Nat) (track : Track) (st : State) (genre : String) : State :=
  let weight : ℚ :=
    match JMap.get st.genreWeights genre with
    | some old => fadd old (trackShare64 BIG_WEIGHT i track)
    | none => trackShare64 BIG_WEIGHT i track
  { st with
    max := if weight > st.max then weight else st.max
    genreWeights := JMap.set st.genreWeights genre weight }

/-- Lines 189-193 in binary64. -/
def addResidual64 (BIG_WEIGHT i : Nat) (track : Track) (artistWeights : JMap String ℚ)
    (id : String) : JMap String ℚ :=
  match JMap.get artistWeights id with
  | some old => JMap.set artistWeights id (fadd old (trackShare64 BIG_WEIGHT i track))
  | none => JMap.set artistWeights id (trackShare64 BIG_WEIGHT i track)

/-- Lines 171-194 in binary64. -/
def trackArtistStep64 (BIG_WEIGHT i : Nat) (track : Track) (st : State) (artist : TrackArtist) :
    State :=
  match JMap.get st.artistGenres artist.id with
  | some genres => genres.foldl (addTrackGenre64 BIG_WEIGHT i track) st
  | none =>
    { st with artistWeights := addResidual64 BIG_WEIGHT i track st.artistWeights artist.id }

/-- Lines 156-195 in binary64. -/
def trackStep64 (BIG_WEIGHT i : Nat) (st : State) (track : Track) : State :=
  let st1 : State := { st with totalPopularity := fadd st.totalPopularity track.popularity }
  let st2 : State :=
    if i < 6 then { st1 with imgs := st1.imgs ++ [getImageUrl track.album.images] } else st1
  let st3 : State :=
    if track.popularity < st2.minPopTrack then
      { st2 with minPopTrack := track.popularity, minPopTrackId := some track }
    else st2
  track.artists.foldl (trackArtistStep64 BIG_WEIGHT i track) st3

/-- Lines 155-196 in binary64, entered at index `i`. -/
def trackLoop64 (BIG_WEIGHT : Nat) : Nat → List Track → State → State
  | _, [], st => st
  | i, track :: rest, st =>
    trackLoop64 BIG_WEIGHT (i + 1) rest (trackStep64 BIG_WEIGHT i st track)

/-- Pass 2 in binary64, with `BIG_WEIGHT = numOfTracks * 2` (line 113). -/
def pass2in64 (tracks : List Track) (st : State) : State :=
  trackLoop64 (tracks.length * 2) 0 tracks st

/-- Lines 115-196 in binary64.  Pass 1 adds and subtracts integers only, which binary64 does
exactly below `2 ^ 53`, so its exact embedding `pass1` is kept. -/
def aggregate64 (artists : List Artist) (tracks : List Track) : State :=
  pass2in64 tracks (pass1 artists)

/-- Lines 220-232 in binary64; `none` when `artistWeights` has no entry for the artist. -/
def foldGenre64 (id : String) (st : State) (genre : String) : Option State :=
  match JMap.get st.artistWeights id with
  | none => none
  | some residual =>
    let weight : ℚ :=
      match JMap.get st.genreWeights genre with
      | some old => fadd old residual
      | none => residual
    some { st with
      max := if weight > st.max then weight else st.max
      genreWeights := JMap.set st.genreWeights genre weight }

/-- Lines 217-235 in binary64. -/
def resolverFold64 (st : State) (artistArrs : List (List Artist)) : Option State :=
  artistArrs.foldlM
    (fun st arr => arr.foldlM (fun st artist => artist.genres.foldlM (foldGenre64 artist.id) st) st)
    st

/-- Lines 245-256 in binary64: the product `genreData[1][i] * value` is rounded, and so is
the sum when it is added to an existing entry. -/
def oppStep64 (value : ℚ) (opps : JMap String OppItem) (genre : String) (multiplier : ℚ)
    (link : String) : JMap String OppItem :=
  match JMap.get opps genre with
  | some oppItem =>
    JMap.set opps genre { oppItem with weight := fadd oppItem.weight (fmul multiplier value) }
  | none =>
    JMap.set opps genre
      { genre := genre
        weight := fmul multiplier value
        url := "https://p.scdn.co/mp3-preview/" ++ link }

/-- Lines 244-257 in binary64, the three arrays of the row walked in lockstep. -/
def oppRowLoop64 (value : ℚ) :
    List String → List ℚ → List String → JMap String OppItem → Option (JMap String OppItem)
  | [], _, _, opps => some opps
  | _ :: _, [], _, _ => none
  | genre :: genres, multiplier :: multipliers, links, opps =>
    oppRowLoop64 value genres multipliers links.tail
      (oppStep64 value opps genre multiplier (links.head?.getD "undefined"))

/-- Lines 239-258 in binary64: both products of the test `value * 16 >= max * 10` are
rounded before they are compared. -/
def oppGenre64 (genreMap : JMap String GenreData) (max : ℚ) (opps : JMap String OppItem)
    (entry : String × ℚ) : Option (JMap String OppItem) :=
  if fmul entry.2 16 ≥ fmul max 10 && JMap.has genreMap entry.1 then
    match JMap.get genreMap entry.1 with
    | some genreData =>
      oppRowLoop64 entry.2 genreData.opps genreData.weights genreData.links opps
    | none => some opps
  else some opps

/-- Lines 238-259 in binary64. -/
def oppLoop64 (genreMap : JMap String GenreData) (max : ℚ) (genreWeights : JMap String ℚ)
    (opps : JMap String OppItem) : Option (JMap String OppItem) :=
  genreWeights.foldlM (oppGenre64 genreMap max) opps

/-- Lines 115-263 in binary64: both passes, the resolver fold over the replies, the projection
and the rendered list of opposite genres. -/
def hates64 (genreMap : JMap String GenreData) (artists : List Artist) (tracks : List Track)
    (artistArrs : List (List Artist)) : Option (List OppItem) :=
  match resolverFold64 (aggregate64 artists tracks) artistArrs with
  | none => none
  | some resolved =>
    match oppLoop64 genreMap resolved.max resolved.genreWeights [] with
    | none => none
    | some opps => some (hates opps)

/-! ## Quantities of the specification -/

/-- The weight recorded for a genre (or an artist), an absent entry counting as `0`. -/
def weightOf (m : JMap String ℚ) (k : String) : ℚ :=
  (JMap.get m k).getD 0

/-- The Pass 1 sum for the genre `g`: over every rank index `i` and every occurrence of `g`
in the genre tags of the artist at rank `i`, the weight `N - i`, where `N` is the number of
artists. -/
def artistRankSum (artists : List Artist) (g : String) : ℚ :=
  (artists.enum.map fun p =>
    (p.2.genres.count g : ℚ) * ((artists.length : ℚ) - (p.1 : ℚ))).sum

/-- The genre tags of all the top artists. -/
def taggedGenres (artists : List Artist) : List String :=
  artists.flatMap Artist.genres

/-- The genres recorded for an artist id by Pass 1 (line 143): those of the last top artist
that carries the id, `none` when no top artist does. -/
def recordedGenres (artists : List Artist) (id : String) : Option (List String) :=
  (artists.reverse.find? fun a => a.id = id).map Artist.genres

/-- The Pass 2 sum for the genre `g`: over every track rank index `i`, every contributing
artist of the track and every occurrence of `g` in the genres recorded for that artist, the
weight `(2T - i) / (number of artists on track i)`, where `T` is the number of tracks.  An
artist that is not a top artist has no recorded genres and adds nothing. -/
def trackRankSum (artists : List Artist) (tracks : List Track) (g : String) : ℚ :=
  (tracks.enum.map fun p =>
    (p.2.artists.map fun a =>
      (((recordedGenres artists a.id).getD []).count g : ℚ)
        * ((2 * (tracks.length : ℚ) - (p.1 : ℚ)) / (p.2.artists.length : ℚ))).sum).sum

/-- The residual sum for an artist id: over every track rank index `i` and every occurrence
of the id among the contributing artists of track `i`, the weight
`(2T - i) / (number of artists on track i)`. -/
def residualSum (tracks : List Track) (id : String) : ℚ :=
  (tracks.enum.map fun p =>
    ((p.2.artists.map TrackArtist.id).count id : ℚ)
      * ((2 * (tracks.length : ℚ) - (p.1 : ℚ)) / (p.2.artists.length : ℚ))).sum

/-- The recorded genres of all the contributing artists of all the tracks. -/
def knownTrackGenres (artists : List Artist) (tracks : List Track) : List String :=
  tracks.flatMap fun t => t.artists.flatMap fun a => (recordedGenres artists a.id).getD []

/-- The ids of all the contributing artists of all the tracks. -/
def trackArtistIds (tracks : List Track) : List String :=
  tracks.flatMap fun t => t.artists.map TrackArtist.id

/-- The threshold of line 241 in the words of the specification: the weight of the entry
times 16 is at least the tracked maximum times 10, and the genre is a key of the table. -/
def qualifies (genreMap : JMap String GenreData) (max : ℚ) (entry : String × ℚ) : Bool :=
  decide (entry.2 * 16 ≥ max * 10 ∧ entry.1 ∈ JMap.keys genreMap)

/-- The index-aligned triples (opposite genre, multiplier, media reference) of a table row. -/
def rowTriples (genreData : GenreData) : List (String × ℚ × String) :=
  genreData.opps.zip (genreData.weights.zip genreData.links)

/-- Every row of the table has a multiplier and a media reference at each index of its
sequence of opposite genres. -/
def aligned (genreMap : JMap String GenreData) : Bool :=
  genreMap.all fun e =>
    decide (e.2.opps.length ≤ e.2.weights.length) && decide (e.2.opps.length ≤ e.2.links.length)

/-- The contributions to the opposite genres, in iteration order: for every qualifying
entry `(genre, w)` of `genreWeights` and every index `j` of the row of `genre`, the opposite
genre at `j`, the amount `multiplier[j] * w` and the media reference at `j`. -/
def contributions (genreMap : JMap String GenreData) (max : ℚ) (genreWeights : JMap String ℚ) :
    List (String × ℚ × String) :=
  (genreWeights.filter (qualifies genreMap max)).flatMap fun e =>
    match JMap.get genreMap e.1 with
    | some genreData => (rowTriples genreData).map fun t => (t.1, t.2.1 * e.2, t.2.2)
    | none => []

/-- The list `s` is the stable sort of `l` by weight descending: a rearrangement of `l` with
non-increasing weights in which the entries of each weight keep the order they have in `l`. -/
def IsStableSortDesc (l s : List OppItem) : Prop :=
  s.Perm l
  ∧ s.Pairwise (fun a b => a.weight ≥ b.weight)
  ∧ ∀ w : ℚ, s.filter (fun x => decide (x.weight = w)) = l.filter (fun x => decide (x.weight = w))

/-- The lookup results name residual artists only: every returned artist's id is a key of
`artistWeights`. -/
def residualKeys (artistWeights : JMap String ℚ) (artistArrs : List (List Artist)) : Bool :=
  artistArrs.all fun arr => arr.all fun artist => JMap.has artistWeights artist.id

/-- Every value stored in the map is strictly positive. -/
def AllPos (m : JMap String ℚ) : Prop :=
  ∀ e ∈ m, 0 < e.2

/-- No entry of `m` is missing from `m'`, and no weight is smaller in `m'` than in `m`. -/
def Grows (m m' : JMap String ℚ) : Prop :=
  ∀ g, (JMap.has m g = true → JMap.has m' g = true) ∧ weightOf m g ≤ weightOf m' g

/-! ## Concrete inputs -/

/-- The scenario of the resolver: a residual holding one artist with weight 5, and a
`genreWeights` map in which "jazz" is already present. -/
def jazzState : State :=
  { State.init with artistWeights := [("x", 5)], genreWeights := [("jazz", 2)] }

/-- The returned artist of the scenario, tagged "jazz" only. -/
def jazzArtist : Artist :=
  { id := "x", name := "X", popularity := 0, genres := ["jazz"], images := [] }

/-- A table with two rows that share the opposite genre "folk". -/
def sampleTable : JMap String GenreData :=
  [("pop", { opps := ["metal", "folk"], weights := [1, 1 / 2], links := ["m.mp3", "f.mp3"] }),
   ("rock", { opps := ["folk"], weights := [2], links := ["g.mp3"] })]

/-- A final `genreWeights` map: "pop" and "rock" pass the threshold against the maximum 3,
"jazz" is not in the table, "folk" is below the threshold. -/
def sampleWeights : JMap String ℚ :=
  [("pop", 3), ("rock", 2), ("jazz", 3), ("folk", 1)]

/-- The top artist of the end-to-end scenario: tagged "pop" only. -/
def popArtist (id name : String) (popularity : ℚ) (images : List Image) : Artist :=
  { id := id, name := name, popularity := popularity, genres := ["pop"], images := images }

/-- The top track of the end-to-end scenario: popularity 50, and the artist with the given
id as its only contributing artist. -/
def popTrack (trackId trackName artistId artistName : String) (album : Album) : Track :=
  { id := trackId, name := trackName, popularity := 50,
    artists := [{ id := artistId, name := artistName }], album := album }

/-- The scenario with concrete names: artist "a" of popularity 10, track "t". -/
def sampleArtist : Artist := popArtist "a" "A" 10 []

/-- The track of the scenario with concrete names. -/
def sampleTrack : Track := popTrack "t" "T" "a" "A" { images := [] }

/-- A returned artist whose genre set is empty. -/
def untaggedArtist (id name : String) (popularity : ℚ) (images : List Image) : Artist :=
  { id := id, name := name, popularity := popularity, genres := [], images := images }

/-- A state whose residual holds 51 artists, one more than a lookup may ask for. -/
def bigResidual : State :=
  { State.init with artistWeights := (List.range 51).map fun i => (toString i, 1) }

/-- Three top tracks; the two least popular ones tie at popularity 30. -/
def tiedTracks : List Track :=
  [{ id := "t0", name := "T0", popularity := 50, artists := [{ id := "a1", name := "A1" }],
     album := { images := [] } },
   { id := "t1", name := "T1", popularity := 30, artists := [{ id := "zz", name := "Z" }],
     album := { images := [] } },
   { id := "t2", name := "T2", popularity := 30, artists := [{ id := "a0", name := "A0" }],
     album := { images := [] } }]

/-- Two top artists of popularity 10 and 20. -/
def twoArtists : List Artist :=
  [{ id := "a0", name := "A0", popularity := 10, genres := ["pop", "rock"], images := [] },
   { id := "a1", name := "A1", popularity := 20, genres := ["pop"], images := [] }]

/-- A reply of the music service for the residual artist "zz" of `tiedTracks`. -/
def zzReply : List (List Artist) :=
  [[{ id := "zz", name := "Z", popularity := 3, genres := ["jazz", "pop"], images := [] }]]

/-- A top track whose only contributing artist, "zz", is not a top artist. -/
def zzTrack : Track := popTrack "t" "T" "zz" "Z" { images := [] }

/-! ## Auxiliary definitions of the proofs -/

/-- The update `m[k] += d` on a map of weights, creating the entry when it is absent: the
shape of lines 146-150, 175-186, 189-193 and 222-232. -/
def accumulate (m : JMap String ℚ) (k : String) (d : ℚ) : JMap String ℚ :=
  match JMap.get m k with
  | some old => JMap.set m k (old + d)
  | none => JMap.set m k d

/-- The genres found for an artist id in the `artistGenres` map, none when it has no entry. -/
def knownGenres (ag : JMap String (List String)) (id : String) : List String :=
  (JMap.get ag id).getD []

/-- Merging one contribution into `opps`: the amount is added to an entry that exists, whose
url is kept; otherwise the entry is created with the amount and the preview url. -/
def mergeOpp (opps : JMap String OppItem) (c : String × ℚ × String) : JMap String OppItem :=
  match JMap.get opps c.1 with
  | some oppItem => JMap.set opps c.1 { oppItem with weight := oppItem.weight + c.2.1 }
  | none =>
    JMap.set opps c.1
      { genre := c.1, weight := c.2.1, url := "https://p.scdn.co/mp3-preview/" ++ c.2.2 }

/-- The comparator of line 263 as an order test: `a` may stand before `b`. -/
def hatesLe (a b : OppItem) : Bool := decide (b.weight - a.weight ≤ 0)

/-- The states agree on every variable but `genreWeights` and `max`. -/
def SameFrame (st st' : State) : Prop :=
  st'.artistWeights = st.artistWeights ∧ st'.artistGenres = st.artistGenres
  ∧ st'.imgs = st.imgs ∧ st'.totalPopularity = st.totalPopularity
  ∧ st'.minPopTrack = st.minPopTrack ∧ st'.minPopTrackId = st.minPopTrackId
  ∧ st'.minPopArtist = st.minPopArtist ∧ st'.minPopArtistId = st.minPopArtistId

/-- What the resolver fold does to the state: only `genreWeights` and `max` change, `max` does
not decrease and, when the residual weights are positive, `genreWeights` grows and stays
positive. -/
def FoldRel (st st' : State) : Prop :=
  SameFrame st st' ∧ st.max ≤ st'.max
  ∧ (AllPos st.artistWeights →
      Grows st.genreWeights st'.genreWeights
      ∧ (AllPos st.genreWeights → AllPos st'.genreWeights))

/-- The running minimum of lines 138-141 and 165-168 over a list: the pair of the least
popularity seen so far and the element that set it. -/
def minScan {α : Type} (pop : α → ℚ) (acc : ℚ × Option α) (l : List α) : ℚ × Option α :=
  l.foldl (fun acc a => if pop a < acc.1 then (pop a, some a) else acc) acc

/-- The states agree on the least-popular track and artist. -/
def SameMin (st st' : State) : Prop :=
  st'.minPopTrack = st.minPopTrack ∧ st'.minPopTrackId = st.minPopTrackId
  ∧ st'.minPopArtist = st.minPopArtist ∧ st'.minPopArtistId = st.minPopArtistId

/-- What a weighting pass does to the two maps of weights: positive maps stay positive and
`genreWeights` grows. -/
def PassRel (st st' : State) : Prop :=
  (AllPos st.genreWeights → AllPos st'.genreWeights)
  ∧ (AllPos st.artistWeights → AllPos st'.artistWeights)
  ∧ Grows st.genreWeights st'.genreWeights

/-! # Theorems -/

/-! ## Lemmas on `JMap` -/

namespace JMap

variable {κ ν : Type} [DecidableEq κ]

theorem get_set (m : JMap κ ν) (k : κ) (v : ν) (k' : κ) :
    get (set m k v) k' = if k = k' then some v else get m k' := by
  induction m with
  | nil => simp [set, get]
  | cons e rest ih =>
    obtain ⟨a, b⟩ := e
    by_cases h : a = k
    · subst h
      by_cases h' : a = k' <;> simp [set, get, h']
    · by_cases h' : a = k'
      · subst h'
        have hk : ¬ k = a := fun e => h e.symm
        simp [set, get, h, hk]
      · simp [set, get, h, h', ih]

theorem has_set (m : JMap κ ν) (k : κ) (v : ν) (k' : κ) :
    has (set m k v) k' = (decide (k = k') || has m k') := by
  unfold has
  rw [get_set]
  by_cases h : k = k' <;> simp [h]

theorem has_eq_true_iff (m : JMap κ ν) (k : κ) : has m k = true ↔ k ∈ keys m := by
  induction m with
  | nil => simp [has, get, keys]
  | cons e rest ih =>
    obtain ⟨a, b⟩ := e
    by_cases h : a = k
    · simp [has, get, keys, h]
    · have hk : ¬ k = a := fun e => h e.symm
      simp only [has, keys] at ih
      simp [has, get, keys, h, hk, ih]

end JMap

theorem weightOf_accumulate (m : JMap String ℚ) (k : String) (d : ℚ) (g : String) :
    weightOf (accumulate m k d) g = weightOf m g + if k = g then d else 0 := by
  unfold accumulate weightOf
  cases hk : JMap.get m k with
  | none =>
    by_cases h : k = g
    · subst h
      simp [JMap.get_set, hk]
    · simp [JMap.get_set, h]
  | some old =>
    by_cases h : k = g
    · subst h
      simp [JMap.get_set, hk]
    · simp [JMap.get_set, h]

theorem has_accumulate (m : JMap String ℚ) (k : String) (d : ℚ) (g : String) :
    JMap.has (accumulate m k d) g = (decide (k = g) || JMap.has m g) := by
  unfold accumulate
  cases hk : JMap.get m k <;> simp [JMap.has_set]

theorem get_eq_of_has_weightOf (m : JMap String ℚ) (g : String) :
    JMap.get m g = if JMap.has m g then some (weightOf m g) else none := by
  unfold JMap.has weightOf
  cases JMap.get m g <;> simp

/-! ## Pass 1 -/

theorem addArtistGenre_eq (N i : Nat) (m : JMap String ℚ) (genre : String) :
    addArtistGenre N i m genre = accumulate m genre ((N : ℚ) - (i : ℚ)) := by
  unfold addArtistGenre accumulate
  cases JMap.get m genre with
  | none => rfl
  | some old => simp [add_sub_assoc]

theorem weightOf_foldl_addArtistGenre (N i : Nat) (genres : List String) (m : JMap String ℚ)
    (g : String) :
    weightOf (genres.foldl (addArtistGenre N i) m) g
      = weightOf m g + (genres.count g : ℚ) * ((N : ℚ) - (i : ℚ)) := by
  induction genres generalizing m with
  | nil => simp
  | cons genre rest ih =>
    rw [List.foldl_cons, ih, addArtistGenre_eq, weightOf_accumulate, List.count_cons]
    by_cases h : genre = g
    · simp [h]; ring
    · simp [h]

theorem has_foldl_addArtistGenre (N i : Nat) (genres : List String) (m : JMap String ℚ)
    (g : String) :
    JMap.has (genres.foldl (addArtistGenre N i) m) g = (JMap.has m g || decide (g ∈ genres)) := by
  induction genres generalizing m with
  | nil => simp
  | cons genre rest ih =>
    rw [List.foldl_cons, ih, addArtistGenre_eq, has_accumulate]
    by_cases h : genre = g
    · simp [h]
    · have h' : ¬ g = genre := fun e => h e.symm
      simp [h, h']

theorem artistStep_genreWeights (N i : Nat) (st : State) (artist : Artist) :
    (artistStep N i st artist).genreWeights
      = artist.genres.foldl (addArtistGenre N i) st.genreWeights := by
  unfold artistStep
  by_cases h : artist.popularity < st.minPopArtist <;> simp [h]

theorem weightOf_artistLoop (N : Nat) (g : String) (rest : List Artist) (i : Nat) (st : State) :
    weightOf (artistLoop N i rest st).genreWeights g
      = weightOf st.genreWeights g
        + ((rest.enumFrom i).map fun p =>
            (p.2.genres.count g : ℚ) * ((N : ℚ) - (p.1 : ℚ))).sum := by
  induction rest generalizing i st with
  | nil => simp [artistLoop]
  | cons artist rest ih =>
    rw [artistLoop, ih, artistStep_genreWeights, weightOf_foldl_addArtistGenre]
    simp [List.enumFrom_cons, add_assoc]

theorem has_artistLoop (N : Nat) (g : String) (rest : List Artist) (i : Nat) (st : State) :
    JMap.has (artistLoop N i rest st).genreWeights g
      = (JMap.has st.genreWeights g || decide (g ∈ taggedGenres rest)) := by
  induction rest generalizing i st with
  | nil => simp [artistLoop, taggedGenres]
  | cons artist rest ih =>
    rw [artistLoop, ih, artistStep_genreWeights, has_foldl_addArtistGenre]
    simp only [taggedGenres] at *
    by_cases h1 : g ∈ artist.genres <;> simp [h1, Bool.or_assoc]

/-- C1. Pass 1 (artist-rank weighting): after the artist loop, a genre tagged on some artist
has in `genreWeights` the sum, over every rank index `i` and every occurrence of the genre in
the tags of the artist at rank `i`, of `N - i`; a genre tagged on no artist has no entry. -/
theorem pass1_genreWeights (artists : List Artist) (g : String) :
    JMap.get (pass1 artists).genreWeights g
      = if g ∈ taggedGenres artists then some (artistRankSum artists g) else none := by
  rw [get_eq_of_has_weightOf]
  unfold pass1
  rw [has_artistLoop, weightOf_artistLoop]
  simp [State.init, JMap.has, JMap.get, weightOf, artistRankSum, List.enum]

/-! ## Pass 2 -/

theorem addTrackGenre_artistGenres (B i : Nat) (t : Track) (st : State) (genre : String) :
    (addTrackGenre B i t st genre).artistGenres = st.artistGenres := rfl

theorem addTrackGenre_artistWeights (B i : Nat) (t : Track) (st : State) (genre : String) :
    (addTrackGenre B i t st genre).artistWeights = st.artistWeights := rfl

theorem addTrackGenre_genreWeights (B i : Nat) (t : Track) (st : State) (genre : String) :
    (addTrackGenre B i t st genre).genreWeights
      = accumulate st.genreWeights genre (trackShare B i t) := by
  unfold addTrackGenre accumulate
  cases JMap.get st.genreWeights genre <;> rfl

theorem foldl_addTrackGenre (B i : Nat) (t : Track) (g : String) (genres : List String)
    (st : State) :
    (genres.foldl (addTrackGenre B i t) st).artistGenres = st.artistGenres
    ∧ (genres.foldl (addTrackGenre B i t) st).artistWeights = st.artistWeights
    ∧ weightOf (genres.foldl (addTrackGenre B i t) st).genreWeights g
        = weightOf st.genreWeights g + (genres.count g : ℚ) * trackShare B i t
    ∧ JMap.has (genres.foldl (addTrackGenre B i t) st).genreWeights g
        = (JMap.has st.genreWeights g || decide (g ∈ genres)) := by
  induction genres generalizing st with
  | nil => simp
  | cons genre rest ih =>
    obtain ⟨h1, h2, h3, h4⟩ := ih (addTrackGenre B i t st genre)
    rw [List.foldl_cons]
    refine ⟨by rw [h1, addTrackGenre_artistGenres], by rw [h2, addTrackGenre_artistWeights], ?_, ?_⟩
    · rw [h3, addTrackGenre_genreWeights, weightOf_accumulate, List.count_cons]
      by_cases h : genre = g
      · simp [h]; ring
      · simp [h]
    · rw [h4, addTrackGenre_genreWeights, has_accumulate]
      by_cases h : genre = g
      · simp [h]
      · have h' : ¬ g = genre := fun e => h e.symm
        simp [h, h']

theorem addResidual_eq (B i : Nat) (t : Track) (aw : JMap String ℚ) (id : String) :
    addResidual B i t aw id = accumulate aw id (trackShare B i t) := rfl

theorem trackArtistStep_spec (B i : Nat) (t : Track) (g id : String) (st : State)
    (a : TrackArtist) :
    (trackArtistStep B i t st a).artistGenres = st.artistGenres
    ∧ weightOf (trackArtistStep B i t st a).genreWeights g
        = weightOf st.genreWeights g
          + ((knownGenres st.artistGenres a.id).count g : ℚ) * trackShare B i t
    ∧ JMap.has (trackArtistStep B i t st a).genreWeights g
        = (JMap.has st.genreWeights g || decide (g ∈ knownGenres st.artistGenres a.id))
    ∧ weightOf (trackArtistStep B i t st a).artistWeights id
        = weightOf st.artistWeights id
          + (if JMap.has st.artistGenres a.id = false ∧ a.id = id then trackShare B i t else 0)
    ∧ JMap.has (trackArtistStep B i t st a).artistWeights id
        = (JMap.has st.artistWeights id
            || (!JMap.has st.artistGenres a.id && decide (a.id = id))) := by
  unfold trackArtistStep knownGenres JMap.has
  cases hg : JMap.get st.artistGenres a.id with
  | some genres =>
    obtain ⟨h1, h2, h3, h4⟩ := foldl_addTrackGenre B i t g genres st
    simp only [JMap.has] at h4
    simp [h1, h2, h3, h4]
  | none =>
    simp only [addResidual_eq, weightOf_accumulate]
    have := has_accumulate st.artistWeights a.id (trackShare B i t) id
    simp only [JMap.has] at this
    simp [this, Bool.or_comm]

theorem foldl_trackArtistStep (B i : Nat) (t : Track) (g id : String) (as : List TrackArtist)
    (st : State) :
    (as.foldl (trackArtistStep B i t) st).artistGenres = st.artistGenres
    ∧ weightOf (as.foldl (trackArtistStep B i t) st).genreWeights g
        = weightOf st.genreWeights g
          + (as.map fun a =>
              ((knownGenres st.artistGenres a.id).count g : ℚ) * trackShare B i t).sum
    ∧ JMap.has (as.foldl (trackArtistStep B i t) st).genreWeights g
        = (JMap.has st.genreWeights g
            || decide (g ∈ as.flatMap fun a => knownGenres st.artistGenres a.id))
    ∧ weightOf (as.foldl (trackArtistStep B i t) st).artistWeights id
        = weightOf st.artistWeights id
          + (if JMap.has st.artistGenres id then 0
             else ((as.map TrackArtist.id).count id : ℚ) * trackShare B i t)
    ∧ JMap.has (as.foldl (trackArtistStep B i t) st).artistWeights id
        = (JMap.has st.artistWeights id
            || (!JMap.has st.artistGenres id && decide (id ∈ as.map TrackArtist.id))) := by
  induction as generalizing st with
  | nil => simp
  | cons a rest ih =>
    obtain ⟨h1, h2, h3, h4, h5⟩ := ih (trackArtistStep B i t st a)
    obtain ⟨k1, k2, k3, k4, k5⟩ := trackArtistStep_spec B i t g id st a
    rw [List.foldl_cons]
    refine ⟨by rw [h1, k1], ?_, ?_, ?_, ?_⟩
    · rw [h2, k2, k1]
      simp [add_assoc]
    · rw [h3, k3, k1]
      by_cases m1 : g ∈ knownGenres st.artistGenres a.id <;> simp [m1, Bool.or_assoc]
    · rw [h4, k4, k1]
      by_cases e : a.id = id
      · subst e
        cases hh : JMap.has st.artistGenres a.id
        · simp [List.count_cons]; ring
        · simp
      · have e' : ¬ id = a.id := fun x => e x.symm
        simp [e, List.count_cons]
    · rw [h5, k5, k1]
      by_cases e : a.id = id
      · subst e
        cases hh : JMap.has st.artistGenres a.id <;> simp
      · have e' : ¬ id = a.id := fun x => e x.symm
        simp [e, e', Bool.or_assoc]

theorem trackStep_eq (B i : Nat) (st : State) (t : Track) :
    ∃ st3 : State, trackStep B i st t = t.artists.foldl (trackArtistStep B i t) st3
      ∧ st3.artistGenres = st.artistGenres ∧ st3.genreWeights = st.genreWeights
      ∧ st3.artistWeights = st.artistWeights := by
  unfold trackStep
  simp only
  split_ifs <;> exact ⟨_, rfl, rfl, rfl, rfl⟩

theorem trackStep_spec (B i : Nat) (g id : String) (st : State) (t : Track) :
    (trackStep B i st t).artistGenres = st.artistGenres
    ∧ weightOf (trackStep B i st t).genreWeights g
        = weightOf st.genreWeights g
          + (t.artists.map fun a =>
              ((knownGenres st.artistGenres a.id).count g : ℚ) * trackShare B i t).sum
    ∧ JMap.has (trackStep B i st t).genreWeights g
        = (JMap.has st.genreWeights g
            || decide (g ∈ t.artists.flatMap fun a => knownGenres st.artistGenres a.id))
    ∧ weightOf (trackStep B i st t).artistWeights id
        = weightOf st.artistWeights id
          + (if JMap.has st.artistGenres id then 0
             else ((t.artists.map TrackArtist.id).count id : ℚ) * trackShare B i t)
    ∧ JMap.has (trackStep B i st t).artistWeights id
        = (JMap.has st.artistWeights id
            || (!JMap.has st.artistGenres id && decide (id ∈ t.artists.map TrackArtist.id))) := by
  obtain ⟨st3, e, e1, e2, e3⟩ := trackStep_eq B i st t
  rw [e, ← e1, ← e2, ← e3]
  exact foldl_trackArtistStep B i t g id t.artists st3

theorem trackLoop_spec (B : Nat) (g id : String) (rest : List Track) (i : Nat) (st : State) :
    (trackLoop B i rest st).artistGenres = st.artistGenres
    ∧ weightOf (trackLoop B i rest st).genreWeights g
        = weightOf st.genreWeights g
          + ((rest.enumFrom i).map fun p =>
              (p.2.artists.map fun a =>
                ((knownGenres st.artistGenres a.id).count g : ℚ) * trackShare B p.1 p.2).sum).sum
    ∧ JMap.has (trackLoop B i rest st).genreWeights g
        = (JMap.has st.genreWeights g
            || decide (g ∈ rest.flatMap fun t =>
                t.artists.flatMap fun a => knownGenres st.artistGenres a.id))
    ∧ weightOf (trackLoop B i rest st).artistWeights id
        = weightOf st.artistWeights id
          + (if JMap.has st.artistGenres id then 0
             else ((rest.enumFrom i).map fun p =>
              ((p.2.artists.map TrackArtist.id).count id : ℚ) * trackShare B p.1 p.2).sum)
    ∧ JMap.has (trackLoop B i rest st).artistWeights id
        = (JMap.has st.artistWeights id
            || (!JMap.has st.artistGenres id
                && decide (id ∈ rest.flatMap fun t => t.artists.map TrackArtist.id))) := by
  induction rest generalizing i st with
  | nil => simp [trackLoop]
  | cons t rest ih =>
    obtain ⟨h1, h2, h3, h4, h5⟩ := ih (i + 1) (trackStep B i st t)
    obtain ⟨k1, k2, k3, k4, k5⟩ := trackStep_spec B i g id st t
    rw [trackLoop]
    refine ⟨by rw [h1, k1], ?_, ?_, ?_, ?_⟩
    · rw [h2, k2, k1]
      simp [List.enumFrom_cons, add_assoc]
    · rw [h3, k3, k1]
      by_cases m1 : g ∈ t.artists.flatMap fun a => knownGenres st.artistGenres a.id
      · simp only [m1, List.flatMap_cons, List.mem_append]
        simp
      · simp only [m1, List.flatMap_cons, List.mem_append]
        simp
    · rw [h4, k4, k1]
      cases hh : JMap.has st.artistGenres id
      · simp [List.enumFrom_cons, add_assoc]
      · simp
    · rw [h5, k5, k1]
      cases hh : JMap.has st.artistGenres id
      · by_cases m1 : id ∈ t.artists.map TrackArtist.id
        · simp only [m1, List.flatMap_cons, List.mem_append]
          simp
        · simp only [m1, List.flatMap_cons, List.mem_append]
          simp
      · simp

theorem artistStep_artistGenres (N i : Nat) (st : State) (artist : Artist) :
    (artistStep N i st artist).artistGenres
      = JMap.set st.artistGenres artist.id artist.genres := by
  unfold artistStep
  by_cases h : artist.popularity < st.minPopArtist <;> simp [h]

theorem artistStep_artistWeights (N i : Nat) (st : State) (artist : Artist) :
    (artistStep N i st artist).artistWeights = st.artistWeights := by
  unfold artistStep
  by_cases h : artist.popularity < st.minPopArtist <;> simp [h]

theorem artistLoop_artistWeights (N : Nat) (rest : List Artist) (i : Nat) (st : State) :
    (artistLoop N i rest st).artistWeights = st.artistWeights := by
  induction rest generalizing i st with
  | nil => rfl
  | cons artist rest ih => rw [artistLoop, ih, artistStep_artistWeights]

theorem artistLoop_artistGenres (N : Nat) (id : String) (rest : List Artist) (i : Nat)
    (st : State) :
    JMap.get (artistLoop N i rest st).artistGenres id
      = (recordedGenres rest id).or (JMap.get st.artistGenres id) := by
  induction rest generalizing i st with
  | nil => simp [artistLoop, recordedGenres]
  | cons artist rest ih =>
    rw [artistLoop, ih, artistStep_artistGenres, JMap.get_set]
    unfold recordedGenres
    rw [List.reverse_cons, List.find?_append]
    cases hr : List.find? (fun a => decide (a.id = id)) rest.reverse with
    | some a => simp
    | none =>
      by_cases e : artist.id = id <;> simp [e, List.find?]

theorem pass1_artistGenres (artists : List Artist) (id : String) :
    JMap.get (pass1 artists).artistGenres id = recordedGenres artists id := by
  unfold pass1
  rw [artistLoop_artistGenres]
  simp [State.init, JMap.get]

theorem recordedGenres_isSome (artists : List Artist) (id : String) :
    (recordedGenres artists id).isSome = decide (id ∈ artists.map Artist.id) := by
  unfold recordedGenres
  rw [Bool.eq_iff_iff]
  simp [List.find?_isSome]

/-- C2. Pass 2, known-genre path: after the track loop the weight of a genre is its Pass 1
weight plus the sum, over every track rank index `i`, every contributing artist of the track
whose id is a top artist's and every occurrence of the genre in that artist's recorded genres,
of `(2T - i) / (number of artists on track i)`; the genre has an entry exactly when it had one
after Pass 1 or occurs in such recorded genres.  The recorded genres are those the code keeps
in `artistGenres`, present exactly for the ids of the top artists. -/
theorem pass2_genreWeights (artists : List Artist) (tracks : List Track) (g : String) :
    weightOf (aggregate artists tracks).genreWeights g
        = weightOf (pass1 artists).genreWeights g + trackRankSum artists tracks g
    ∧ JMap.has (aggregate artists tracks).genreWeights g
        = (JMap.has (pass1 artists).genreWeights g
            || decide (g ∈ knownTrackGenres artists tracks))
    ∧ (∀ id, JMap.get (pass1 artists).artistGenres id = recordedGenres artists id)
    ∧ (∀ id, (recordedGenres artists id).isSome = decide (id ∈ artists.map Artist.id)) := by
  obtain ⟨-, h2, h3, -, -⟩ :=
    trackLoop_spec (tracks.length * 2) g g tracks 0 (pass1 artists)
  refine ⟨?_, ?_, pass1_artistGenres artists, recordedGenres_isSome artists⟩
  · unfold aggregate pass2
    rw [h2]
    simp only [knownGenres, pass1_artistGenres, trackRankSum, trackShare, List.enum]
    push_cast
    simp only [mul_comm (tracks.length : ℚ) 2]
  · unfold aggregate pass2
    rw [h3]
    simp only [knownGenres, pass1_artistGenres, knownTrackGenres]

/-- C3. Pass 2, residual path: after the track loop `artistWeights` has a key for an artist
id exactly when the id appears among some track's contributing artists and is not the id of a
top artist, and its value is the sum over every track rank index `i` and every occurrence of
the id on track `i` of `(2T - i) / (number of artists on track i)`; no id is both a key of
`artistGenres` and a key of `artistWeights`. -/
theorem pass2_artistWeights (artists : List Artist) (tracks : List Track) (id : String) :
    JMap.get (aggregate artists tracks).artistWeights id
        = (if id ∈ trackArtistIds tracks ∧ id ∉ artists.map Artist.id
            then some (residualSum tracks id) else none)
    ∧ ¬ (JMap.has (aggregate artists tracks).artistGenres id = true
          ∧ JMap.has (aggregate artists tracks).artistWeights id = true) := by
  obtain ⟨h1, -, -, h4, h5⟩ :=
    trackLoop_spec (tracks.length * 2) id id tracks 0 (pass1 artists)
  have hag : JMap.has (pass1 artists).artistGenres id = decide (id ∈ artists.map Artist.id) := by
    unfold JMap.has
    rw [pass1_artistGenres, recordedGenres_isSome]
  have haw : (pass1 artists).artistWeights = [] := by
    unfold pass1
    rw [artistLoop_artistWeights]
    rfl
  unfold aggregate pass2
  rw [get_eq_of_has_weightOf, h1, h4, h5, hag, haw]
  by_cases m1 : id ∈ artists.map Artist.id
  · simp [m1, JMap.has, JMap.get]
  · by_cases m2 : id ∈ trackArtistIds tracks
    · have m2' := m2
      unfold trackArtistIds at m2'
      simp only [m1, m2, m2', JMap.has, JMap.get, weightOf, residualSum, trackShare, List.enum]
      push_cast
      simp [mul_comm (tracks.length : ℚ) 2]
    · have m2' := m2
      unfold trackArtistIds at m2'
      simp [m1, m2, m2', JMap.has, JMap.get]

/-! ## The resolver fold -/

theorem foldGenre_eq (id : String) (st : State) (genre : String) (w : ℚ)
    (h : JMap.get st.artistWeights id = some w) :
    ∃ st' : State, foldGenre id st genre = some st'
      ∧ st'.artistWeights = st.artistWeights
      ∧ st'.genreWeights = accumulate st.genreWeights genre w
      ∧ st.max ≤ st'.max := by
  unfold foldGenre accumulate
  rw [h]
  cases hg : JMap.get st.genreWeights genre with
  | none =>
    refine ⟨_, rfl, rfl, rfl, ?_⟩
    simp only
    split_ifs with hw
    · exact le_of_lt hw
    · exact le_refl _
  | some old =>
    refine ⟨_, rfl, rfl, rfl, ?_⟩
    simp only
    split_ifs with hw
    · exact le_of_lt hw
    · exact le_refl _

theorem foldlM_foldGenre (id : String) (w : ℚ) (genres : List String) (st : State)
    (h : JMap.get st.artistWeights id = some w) :
    ∃ st' : State, genres.foldlM (foldGenre id) st = some st'
      ∧ st'.artistWeights = st.artistWeights
      ∧ st.max ≤ st'.max
      ∧ (∀ g, weightOf st'.genreWeights g
              = weightOf st.genreWeights g + (genres.count g : ℚ) * w)
      ∧ (∀ g, JMap.has st'.genreWeights g = (JMap.has st.genreWeights g || decide (g ∈ genres))) := by
  induction genres generalizing st with
  | nil => exact ⟨st, rfl, rfl, le_refl _, by simp, by simp⟩
  | cons genre rest ih =>
    obtain ⟨st1, e1, a1, g1, m1⟩ := foldGenre_eq id st genre w h
    obtain ⟨st2, e2, a2, m2, w2, h2⟩ := ih st1 (by rw [a1]; exact h)
    refine ⟨st2, ?_, by rw [a2, a1], le_trans m1 m2, ?_, ?_⟩
    · rw [List.foldlM_cons, e1]
      exact e2
    · intro g
      rw [w2, g1, weightOf_accumulate, List.count_cons]
      by_cases e : genre = g
      · simp [e]; ring
      · simp [e]
    · intro g
      rw [h2, g1, has_accumulate]
      by_cases e : genre = g
      · simp [e]
      · have e' : ¬ g = genre := fun x => e x.symm
        simp [e, e']

/-- C4. Resolver fold: when the returned artist's id is a key of the residual with weight
`w`, folding the artist succeeds; each of its genre tags `g` ends at its prior weight (`0`
when absent) plus `w` for every occurrence of `g` among the tags, so with tags that do not
repeat an absent genre is created with value `w` and a present one goes from `prior` to
`prior + w`; every genre that is not a tag keeps its entry, or its absence, unchanged. -/
theorem foldArtist_genreWeights (st : State) (artist : Artist) (w : ℚ)
    (h : JMap.get st.artistWeights artist.id = some w) :
    ∃ st' : State, foldArtist st artist = some st'
      ∧ (∀ g, g ∈ artist.genres →
          JMap.get st'.genreWeights g
            = some (weightOf st.genreWeights g + (artist.genres.count g : ℚ) * w))
      ∧ (artist.genres.Nodup → ∀ g, g ∈ artist.genres →
          (JMap.get st.genreWeights g = none → JMap.get st'.genreWeights g = some w)
          ∧ (∀ prior, JMap.get st.genreWeights g = some prior →
              JMap.get st'.genreWeights g = some (prior + w)))
      ∧ (∀ g, g ∉ artist.genres → JMap.get st'.genreWeights g = JMap.get st.genreWeights g) := by
  obtain ⟨st', e, -, -, hw, hh⟩ := foldlM_foldGenre artist.id w artist.genres st h
  have key : ∀ g, g ∈ artist.genres →
      JMap.get st'.genreWeights g
        = some (weightOf st.genreWeights g + (artist.genres.count g : ℚ) * w) := by
    intro g hg
    rw [get_eq_of_has_weightOf, hh, hw]
    simp [hg]
  refine ⟨st', e, key, ?_, ?_⟩
  · intro nd g hg
    have c1 : artist.genres.count g = 1 := List.count_eq_one_of_mem nd hg
    refine ⟨fun hn => ?_, fun prior hp => ?_⟩
    · rw [key g hg, c1]
      simp [weightOf, hn]
    · rw [key g hg, c1]
      simp [weightOf, hp]
  · intro g hg
    rw [get_eq_of_has_weightOf, hh, hw, get_eq_of_has_weightOf st.genreWeights]
    simp [hg, List.count_eq_zero_of_not_mem hg]

theorem foldArtist_genreWeights_witness :
    JMap.get jazzState.artistWeights jazzArtist.id = some 5
    ∧ ∃ st' : State, foldArtist jazzState jazzArtist = some st'
      ∧ (∀ g, g ∈ jazzArtist.genres →
          JMap.get st'.genreWeights g
            = some (weightOf jazzState.genreWeights g + (jazzArtist.genres.count g : ℚ) * 5))
      ∧ (jazzArtist.genres.Nodup → ∀ g, g ∈ jazzArtist.genres →
          (JMap.get jazzState.genreWeights g = none → JMap.get st'.genreWeights g = some 5)
          ∧ (∀ prior, JMap.get jazzState.genreWeights g = some prior →
              JMap.get st'.genreWeights g = some (prior + 5)))
      ∧ (∀ g, g ∉ jazzArtist.genres →
          JMap.get st'.genreWeights g = JMap.get jazzState.genreWeights g) :=
  ⟨by decide, foldArtist_genreWeights jazzState jazzArtist 5 (by decide)⟩

/-! ## The projection onto opposite genres -/

theorem qualifies_eq (genreMap : JMap String GenreData) (max : ℚ) (entry : String × ℚ) :
    (decide (entry.2 * 16 ≥ max * 10) && JMap.has genreMap entry.1) = qualifies genreMap max entry := by
  unfold qualifies
  rw [Bool.eq_iff_iff]
  simp [JMap.has_eq_true_iff]

theorem oppGenre_of_not_qualifies (genreMap : JMap String GenreData) (max : ℚ)
    (opps : JMap String OppItem) (entry : String × ℚ)
    (h : qualifies genreMap max entry = false) : oppGenre genreMap max opps entry = some opps := by
  unfold oppGenre
  rw [qualifies_eq, h]
  simp

theorem oppGenre_of_qualifies (genreMap : JMap String GenreData) (max : ℚ)
    (opps : JMap String OppItem) (entry : String × ℚ)
    (h : qualifies genreMap max entry = true) :
    ∃ genreData, JMap.get genreMap entry.1 = some genreData
      ∧ oppGenre genreMap max opps entry
          = oppRowLoop entry.2 genreData.opps genreData.weights genreData.links opps := by
  have hk : JMap.has genreMap entry.1 = true := by
    rw [JMap.has_eq_true_iff]
    unfold qualifies at h
    simp at h
    exact h.2
  unfold oppGenre
  rw [qualifies_eq, h]
  unfold JMap.has at hk
  cases hg : JMap.get genreMap entry.1 with
  | none => simp [hg] at hk
  | some gd => exact ⟨gd, rfl, by simp⟩

theorem oppLoop_filter (genreMap : JMap String GenreData) (max : ℚ)
    (genreWeights : JMap String ℚ) (opps : JMap String OppItem) :
    oppLoop genreMap max genreWeights opps
      = oppLoop genreMap max (genreWeights.filter (qualifies genreMap max)) opps := by
  unfold oppLoop
  induction genreWeights generalizing opps with
  | nil => rfl
  | cons e rest ih =>
    cases hq : qualifies genreMap max e with
    | false =>
      rw [List.filter_cons_of_neg (by simp [hq]), List.foldlM_cons,
        oppGenre_of_not_qualifies genreMap max opps e hq]
      exact ih opps
    | true =>
      rw [List.filter_cons_of_pos (by simp [hq]), List.foldlM_cons, List.foldlM_cons]
      cases oppGenre genreMap max opps e with
      | none => rfl
      | some opps1 => exact ih opps1

/-- C5. Projection threshold: an entry `(genre, w)` of `genreWeights` qualifies exactly when
`w * 16 >= M * 10` and the genre is a key of the table; a qualifying entry has its table row
accumulated into `opps`; an entry that fails either condition is skipped without error and
leaves `opps` as it was, so the whole loop yields what it yields on the qualifying entries
alone. -/
theorem projection_threshold (genreMap : JMap String GenreData) (max : ℚ)
    (opps : JMap String OppItem) (entry : String × ℚ) :
    (qualifies genreMap max entry = true
        ↔ entry.2 * 16 ≥ max * 10 ∧ entry.1 ∈ JMap.keys genreMap)
    ∧ (qualifies genreMap max entry = true →
        ∃ genreData, JMap.get genreMap entry.1 = some genreData
          ∧ oppGenre genreMap max opps entry
              = oppRowLoop entry.2 genreData.opps genreData.weights genreData.links opps)
    ∧ (qualifies genreMap max entry = false → oppGenre genreMap max opps entry = some opps)
    ∧ (∀ genreWeights : JMap String ℚ,
        oppLoop genreMap max genreWeights opps
          = oppLoop genreMap max (genreWeights.filter (qualifies genreMap max)) opps) :=
  ⟨by simp [qualifies], oppGenre_of_qualifies genreMap max opps entry,
    oppGenre_of_not_qualifies genreMap max opps entry,
    fun genreWeights => oppLoop_filter genreMap max genreWeights opps⟩

theorem oppStep_eq_mergeOpp (value : ℚ) (opps : JMap String OppItem) (genre : String)
    (multiplier : ℚ) (link : String) :
    oppStep value opps genre multiplier link = mergeOpp opps (genre, multiplier * value, link) := by
  unfold oppStep mergeOpp
  cases JMap.get opps genre <;> rfl

theorem oppRowLoop_aligned (value : ℚ) (genres : List String) (multipliers : List ℚ)
    (links : List String) (opps : JMap String OppItem)
    (h1 : genres.length ≤ multipliers.length) (h2 : genres.length ≤ links.length) :
    oppRowLoop value genres multipliers links opps
      = some (((genres.zip (multipliers.zip links)).map fun t =>
          (t.1, t.2.1 * value, t.2.2)).foldl mergeOpp opps) := by
  induction genres generalizing multipliers links opps with
  | nil => simp [oppRowLoop]
  | cons genre genres ih =>
    cases multipliers with
    | nil => simp at h1
    | cons multiplier multipliers =>
      cases links with
      | nil => simp at h2
      | cons link links =>
        simp only [List.length_cons, add_le_add_iff_right] at h1 h2
        rw [oppRowLoop, ih multipliers _ _ h1 (by simpa using h2), oppStep_eq_mergeOpp]
        simp

theorem aligned_get (genreMap : JMap String GenreData) (h : aligned genreMap = true)
    (k : String) (genreData : GenreData) (hg : JMap.get genreMap k = some genreData) :
    genreData.opps.length ≤ genreData.weights.length
      ∧ genreData.opps.length ≤ genreData.links.length := by
  induction genreMap with
  | nil => simp [JMap.get] at hg
  | cons e rest ih =>
    obtain ⟨a, b⟩ := e
    unfold aligned at h ih
    simp only [List.all_cons, Bool.and_eq_true, decide_eq_true_eq] at h
    by_cases e : a = k
    · simp only [JMap.get, e, if_true, Option.some.injEq] at hg
      subst hg
      exact h.1
    · simp only [JMap.get, e, if_false] at hg
      exact ih h.2 hg

theorem oppLoop_aligned (genreMap : JMap String GenreData) (max : ℚ)
    (h : aligned genreMap = true) (genreWeights : JMap String ℚ) (opps : JMap String OppItem) :
    oppLoop genreMap max genreWeights opps
      = some ((contributions genreMap max genreWeights).foldl mergeOpp opps) := by
  unfold oppLoop contributions
  induction genreWeights generalizing opps with
  | nil => rfl
  | cons e rest ih =>
    rw [List.foldlM_cons]
    cases hq : qualifies genreMap max e with
    | false =>
      rw [List.filter_cons_of_neg (by simp [hq]),
        oppGenre_of_not_qualifies genreMap max opps e hq]
      exact ih opps
    | true =>
      obtain ⟨gd, hg, he⟩ := oppGenre_of_qualifies genreMap max opps e hq
      obtain ⟨l1, l2⟩ := aligned_get genreMap h e.1 gd hg
      rw [List.filter_cons_of_pos (by simp [hq]), he, oppRowLoop_aligned _ _ _ _ _ l1 l2,
        List.flatMap_cons, List.foldl_append, hg]
      exact ih _

theorem get_mergeOpp (opps : JMap String OppItem) (c : String × ℚ × String) (o : String) :
    JMap.get (mergeOpp opps c) o
      = if c.1 = o then
          some (match JMap.get opps o with
            | some oppItem => { oppItem with weight := oppItem.weight + c.2.1 }
            | none =>
              { genre := o, weight := c.2.1, url := "https://p.scdn.co/mp3-preview/" ++ c.2.2 })
        else JMap.get opps o := by
  unfold mergeOpp
  by_cases e : c.1 = o
  · subst e
    cases hg : JMap.get opps c.1 <;> simp [JMap.get_set]
  · cases hg : JMap.get opps c.1 <;> simp [JMap.get_set, e]

theorem get_foldl_mergeOpp (cs : List (String × ℚ × String)) (opps : JMap String OppItem)
    (o : String) :
    JMap.get (cs.foldl mergeOpp opps) o
      = match JMap.get opps o, cs.find? (fun c => c.1 = o) with
        | some oppItem, _ =>
          some { oppItem with
            weight := oppItem.weight + ((cs.filter fun c => c.1 = o).map fun c => c.2.1).sum }
        | none, some c =>
          some { genre := o
                 weight := ((cs.filter fun c => c.1 = o).map fun c => c.2.1).sum
                 url := "https://p.scdn.co/mp3-preview/" ++ c.2.2 }
        | none, none => none := by
  induction cs generalizing opps with
  | nil => cases hg : JMap.get opps o <;> simp [hg]
  | cons c cs ih =>
    rw [List.foldl_cons, ih, get_mergeOpp]
    by_cases e : c.1 = o
    · cases hg : JMap.get opps o <;> simp [e, hg, add_assoc]
    · cases hg : JMap.get opps o <;> simp [e, hg]

/-- C6. Projection merge: over a table whose rows carry a multiplier and a media reference
at every index, the projection succeeds and `opps` has an entry for an opposite genre exactly
when some contribution names it; the entry's weight is the sum of `multiplier[j] * w` over
every qualifying source genre with weight `w` and every index `j` of its row that names the
opposite genre, and its url is the preview prefix followed by the media reference of the
first such contribution in iteration order. -/
theorem projection_merge (genreMap : JMap String GenreData) (max : ℚ)
    (genreWeights : JMap String ℚ) (h : aligned genreMap = true) :
    ∃ opps : JMap String OppItem, oppLoop genreMap max genreWeights [] = some opps
      ∧ ∀ o : String,
          JMap.get opps o
            = match (contributions genreMap max genreWeights).find? (fun c => c.1 = o) with
              | some first =>
                some { genre := o
                       weight := (((contributions genreMap max genreWeights).filter
                          fun c => c.1 = o).map fun c => c.2.1).sum
                       url := "https://p.scdn.co/mp3-preview/" ++ first.2.2 }
              | none => none := by
  refine ⟨_, oppLoop_aligned genreMap max h genreWeights [], fun o => ?_⟩
  rw [get_foldl_mergeOpp]
  simp only [JMap.get]
  cases (contributions genreMap max genreWeights).find? (fun c => c.1 = o) <;> rfl

theorem projection_merge_witness :
    aligned sampleTable = true
    ∧ ∃ opps : JMap String OppItem, oppLoop sampleTable 3 sampleWeights [] = some opps
      ∧ ∀ o : String,
          JMap.get opps o
            = match (contributions sampleTable 3 sampleWeights).find? (fun c => c.1 = o) with
              | some first =>
                some { genre := o
                       weight := (((contributions sampleTable 3 sampleWeights).filter
                          fun c => c.1 = o).map fun c => c.2.1).sum
                       url := "https://p.scdn.co/mp3-preview/" ++ first.2.2 }
              | none => none :=
  ⟨by decide, projection_merge sampleTable 3 sampleWeights (by decide)⟩

theorem projection_threshold_witness :
    (qualifies sampleTable 3 ("pop", 3) = true
      ∧ ∃ genreData, JMap.get sampleTable "pop" = some genreData
          ∧ oppGenre sampleTable 3 [] ("pop", 3)
              = oppRowLoop 3 genreData.opps genreData.weights genreData.links [])
    ∧ (qualifies sampleTable 3 ("folk", 1) = false
      ∧ oppGenre sampleTable 3 [] ("folk", 1) = some [])
    ∧ (qualifies sampleTable 3 ("jazz", 3) = false
      ∧ oppGenre sampleTable 3 [] ("jazz", 3) = some []) :=
  have hpop : qualifies sampleTable 3 ("pop", 3) = true := by
    simp [qualifies, sampleTable, JMap.keys]
    norm_num
  have hfolk : qualifies sampleTable 3 ("folk", 1) = false := by
    simp [qualifies, sampleTable, JMap.keys]
  have hjazz : qualifies sampleTable 3 ("jazz", 3) = false := by
    simp [qualifies, sampleTable, JMap.keys]
  ⟨⟨hpop, (projection_threshold sampleTable 3 [] ("pop", 3)).2.1 hpop⟩,
    ⟨hfolk, (projection_threshold sampleTable 3 [] ("folk", 1)).2.2.1 hfolk⟩,
    ⟨hjazz, (projection_threshold sampleTable 3 [] ("jazz", 3)).2.2.1 hjazz⟩⟩

/-! ## The rendered list of opposite genres -/

theorem hatesLe_iff (a b : OppItem) : hatesLe a b = true ↔ a.weight ≥ b.weight := by
  simp [hatesLe]

theorem hatesLe_trans (a b c : OppItem) (h1 : hatesLe a b = true) (h2 : hatesLe b c = true) :
    hatesLe a c = true := by
  rw [hatesLe_iff] at *
  exact le_trans h2 h1

theorem hatesLe_total (a b : OppItem) : (hatesLe a b || hatesLe b a) = true := by
  rw [Bool.or_eq_true, hatesLe_iff, hatesLe_iff]
  exact le_total _ _

theorem stableSortDesc_unique (s1 s2 : List OppItem) (hp : s1.Perm s2)
    (h1 : s1.Pairwise (fun a b => a.weight ≥ b.weight))
    (h2 : s2.Pairwise (fun a b => a.weight ≥ b.weight))
    (hf : ∀ w : ℚ, s1.filter (fun x => decide (x.weight = w))
        = s2.filter (fun x => decide (x.weight = w))) :
    s1 = s2 := by
  induction s1 generalizing s2 with
  | nil => exact (List.Perm.nil_eq hp)
  | cons a s1 ih =>
    cases s2 with
    | nil => exact absurd hp.eq_nil (by simp)
    | cons b s2 =>
      have hab : a.weight ≥ b.weight := by
        have hb : b ∈ a :: s1 := hp.symm.subset (List.mem_cons_self _ _)
        rcases List.mem_cons.1 hb with e | m
        · rw [e]
        · exact List.rel_of_pairwise_cons h1 m
      have hba : b.weight ≥ a.weight := by
        have ha : a ∈ b :: s2 := hp.subset (List.mem_cons_self _ _)
        rcases List.mem_cons.1 ha with e | m
        · rw [e]
        · exact List.rel_of_pairwise_cons h2 m
      have hw : b.weight = a.weight := le_antisymm hab hba
      have e := hf a.weight
      simp only [List.filter_cons, hw, decide_True, if_true, List.cons.injEq] at e
      obtain ⟨e1, -⟩ := e
      subst e1
      congr 1
      apply ih s2 (List.Perm.cons_inv hp) (List.Pairwise.of_cons h1) (List.Pairwise.of_cons h2)
      intro w
      have e := hf w
      simp only [List.filter_cons] at e
      split_ifs at e with hc
      · exact (List.cons.inj e).2
      · exact e

theorem mergeSort_isStableSortDesc (l : List OppItem) :
    IsStableSortDesc l (l.mergeSort hatesLe) := by
  refine ⟨List.mergeSort_perm l hatesLe, ?_, fun w => ?_⟩
  · exact (List.sorted_mergeSort hatesLe_trans hatesLe_total l).imp
      (fun {a b} h => (hatesLe_iff a b).1 h)
  · have hsub : (l.filter fun x => decide (x.weight = w)).Sublist (l.mergeSort hatesLe) := by
      apply List.sublist_mergeSort hatesLe_trans hatesLe_total
      · rw [List.pairwise_iff_forall_sublist]
        intro a b hs
        have ha : a ∈ l.filter fun x => decide (x.weight = w) := hs.subset (by simp)
        have hb : b ∈ l.filter fun x => decide (x.weight = w) := hs.subset (by simp)
        simp only [List.mem_filter, decide_eq_true_eq] at ha hb
        rw [hatesLe_iff, ha.2, hb.2]
      · exact List.filter_sublist l
    have h2 := hsub.filter (fun x => decide (x.weight = w))
    rw [List.filter_filter] at h2
    simp only [Bool.and_self] at h2
    have hlen : ((l.mergeSort hatesLe).filter fun x => decide (x.weight = w)).length
        = (l.filter fun x => decide (x.weight = w)).length :=
      ((List.mergeSort_perm l hatesLe).filter _).length_eq
    exact (h2.eq_of_length hlen.symm).symm

theorem hates_eq_take (opps : JMap String OppItem) :
    hates opps = ((JMap.values opps).mergeSort hatesLe).take 6 := by
  unfold hates slice
  rw [List.drop_zero, Nat.sub_zero]
  rfl

/-- C7. Projection output: the entries of `opps`, taken in insertion order, have exactly one
stable sort by weight descending, and the rendered `hates` list is its first six elements;
so the list has at most 6 entries, weights never increase along it, for each weight the
entries of that weight appear in insertion order (a prefix of those of `opps`), and no omitted
entry weighs more than an included one. -/
theorem hates_stable_top_six (opps : JMap String OppItem) :
    ∃ sorted : List OppItem,
      IsStableSortDesc (JMap.values opps) sorted
      ∧ (∀ s, IsStableSortDesc (JMap.values opps) s → s = sorted)
      ∧ hates opps = sorted.take 6
      ∧ (hates opps).length ≤ 6
      ∧ (hates opps).Pairwise (fun a b => a.weight ≥ b.weight)
      ∧ (∀ w : ℚ, (hates opps).filter (fun x => decide (x.weight = w))
            <+: (JMap.values opps).filter (fun x => decide (x.weight = w)))
      ∧ (∀ x ∈ sorted.drop 6, ∀ y ∈ hates opps, x.weight ≤ y.weight) := by
  have hs := mergeSort_isStableSortDesc (JMap.values opps)
  refine ⟨(JMap.values opps).mergeSort hatesLe, hs, ?_, hates_eq_take opps, ?_, ?_, ?_, ?_⟩
  · intro s h
    exact stableSortDesc_unique s _ (h.1.trans hs.1.symm) h.2.1 hs.2.1
      (fun w => (h.2.2 w).trans (hs.2.2 w).symm)
  · rw [hates_eq_take]
    exact List.length_take_le 6 _
  · rw [hates_eq_take]
    exact hs.2.1.sublist (List.take_sublist 6 _)
  · intro w
    rw [hates_eq_take, ← hs.2.2 w]
    exact (List.take_prefix 6 _).filter _
  · intro x hx y hy
    rw [hates_eq_take] at hy
    have hp := hs.2.1
    rw [← List.take_append_drop 6 ((JMap.values opps).mergeSort hatesLe),
      List.pairwise_append] at hp
    exact hp.2.2 y hy x hx

/-! ## The descriptive label -/

/-- C8. The bands of `getBasic` are half-open: a score of at least 80 gives "White girl", one
in [60, 80) gives "Average", one in [40, 60) gives "Indie kid", one in [20, 40) gives "Weirdo"
and one below 20 gives the lowest-band label; the scores 80, 79, 60, 59, 40, 39, 20 and 19 map
to White girl, Average, Average, Indie kid, Indie kid, Weirdo, Weirdo and the lowest band. -/
theorem getBasic_bands (score : ℚ) :
    (80 ≤ score → getBasic score = "White girl")
    ∧ (60 ≤ score → score < 80 → getBasic score = "Average")
    ∧ (40 ≤ score → score < 60 → getBasic score = "Indie kid")
    ∧ (20 ≤ score → score < 40 → getBasic score = "Weirdo")
    ∧ (score < 20 → getBasic score = "Apologies for interrupting your grindset")
    ∧ getBasic 80 = "White girl" ∧ getBasic 79 = "Average" ∧ getBasic 60 = "Average"
    ∧ getBasic 59 = "Indie kid" ∧ getBasic 40 = "Indie kid" ∧ getBasic 39 = "Weirdo"
    ∧ getBasic 20 = "Weirdo" ∧ getBasic 19 = "Apologies for interrupting your grindset" := by
  refine ⟨?_, ?_, ?_, ?_, ?_, ?_, ?_, ?_, ?_, ?_, ?_, ?_, ?_⟩
  · intro h
    simp [getBasic, h]
  · intro h1 h2
    simp [getBasic, h1, not_le.2 h2]
  · intro h1 h2
    have h3 : score < 80 := by linarith
    simp [getBasic, h1, not_le.2 h2, not_le.2 h3]
  · intro h1 h2
    have h3 : score < 60 := by linarith
    have h4 : score < 80 := by linarith
    simp [getBasic, h1, not_le.2 h2, not_le.2 h3, not_le.2 h4]
  · intro h1
    have h2 : score < 40 := by linarith
    have h3 : score < 60 := by linarith
    have h4 : score < 80 := by linarith
    simp [getBasic, not_le.2 h1, not_le.2 h2, not_le.2 h3, not_le.2 h4]
  all_goals decide

theorem getBasic_bands_witness :
    ((60 : ℚ) ≤ 79 ∧ (79 : ℚ) < 80 ∧ getBasic 79 = "Average")
    ∧ ((19 : ℚ) < 20 ∧ getBasic 19 = "Apologies for interrupting your grindset") :=
  ⟨⟨by decide, by decide, (getBasic_bands 79).2.1 (by decide) (by decide)⟩,
    ⟨by decide, (getBasic_bands 19).2.2.2.2.1 (by decide)⟩⟩

/-! ## The single-artist, single-track scenario -/

theorem scenario_pass1 (id name : String) (popularity : ℚ) (images : List Image) :
    pass1 [popArtist id name popularity images]
      = { artistWeights := [], genreWeights := [("pop", 1)], artistGenres := [(id, ["pop"])],
          imgs := [], max := 0, totalPopularity := 0, minPopTrack := 101, minPopTrackId := none,
          minPopArtist := if popularity < 101 then popularity else 101,
          minPopArtistId :=
            if popularity < 101 then some (popArtist id name popularity images) else none } := by
  by_cases h : popularity < 101 <;>
    simp [pass1, artistLoop, artistStep, addArtistGenre, JMap.get, JMap.set, State.init,
      popArtist, h]

theorem scenario_aggregate (id name : String) (popularity : ℚ) (images : List Image)
    (trackId trackName artistName : String) (album : Album) :
    aggregate [popArtist id name popularity images]
        [popTrack trackId trackName id artistName album]
      = { artistWeights := [], genreWeights := [("pop", 3)], artistGenres := [(id, ["pop"])],
          imgs := [getImageUrl album.images], max := 3, totalPopularity := 50,
          minPopTrack := 50,
          minPopTrackId := some (popTrack trackId trackName id artistName album),
          minPopArtist := if popularity < 101 then popularity else 101,
          minPopArtistId :=
            if popularity < 101 then some (popArtist id name popularity images) else none } := by
  unfold aggregate
  rw [scenario_pass1]
  simp [pass2, trackLoop, trackStep, trackArtistStep, addTrackGenre, JMap.get, JMap.set,
    trackShare, popTrack]
  norm_num

/-- C9. End-to-end scenario: with one top artist tagged "pop" and one top track of popularity
50 whose only contributing artist is that artist, Pass 1 leaves `{"pop": 1}` and Pass 2 adds 2,
so `genreWeights` is exactly `{"pop": 3}`; the residual is empty, no lookup is issued (whatever
the music service would reply), the resolver fold over no reply leaves the map at
`{"pop": 3}`, and the score `totalPopularity / numOfTracks` is 50. -/
theorem scenario_end_to_end (id name : String) (popularity : ℚ) (images : List Image)
    (trackId trackName artistName : String) (album : Album)
    (fetchArtists : List String → Option (List Artist)) :
    (pass1 [popArtist id name popularity images]).genreWeights = [("pop", 1)]
    ∧ (aggregate [popArtist id name popularity images]
        [popTrack trackId trackName id artistName album]).genreWeights = [("pop", 3)]
    ∧ (aggregate [popArtist id name popularity images]
        [popTrack trackId trackName id artistName album]).artistWeights = []
    ∧ lookupBatches (aggregate [popArtist id name popularity images]
        [popTrack trackId trackName id artistName album]).artistWeights = []
    ∧ promiseAll fetchArtists (lookupBatches (aggregate [popArtist id name popularity images]
        [popTrack trackId trackName id artistName album]).artistWeights) = some []
    ∧ (resolverFold (aggregate [popArtist id name popularity images]
        [popTrack trackId trackName id artistName album]) []).map State.genreWeights
        = some [("pop", 3)]
    ∧ score (aggregate [popArtist id name popularity images]
        [popTrack trackId trackName id artistName album])
        [popTrack trackId trackName id artistName album].length = 50 := by
  rw [scenario_pass1, scenario_aggregate]
  refine ⟨rfl, rfl, rfl, ?_, ?_, ?_, ?_⟩
  · simp [lookupBatches, JMap.size]
  · simp [lookupBatches, JMap.size, promiseAll]
  · simp [resolverFold]
  · simp [score]

/-- C10, as stated, fails: in the scenario the average popularity is 50 and `getBasic` maps
it to "Indie kid", the band [40, 60), not to "Average". -/
theorem scenario_label_not_average :
    score (aggregate [sampleArtist] [sampleTrack]) 1 = 50
    ∧ getBasic (score (aggregate [sampleArtist] [sampleTrack]) 1) = "Indie kid"
    ∧ getBasic (score (aggregate [sampleArtist] [sampleTrack]) 1) ≠ "Average" := by
  have hs : score (aggregate [sampleArtist] [sampleTrack]) 1 = 50 := by
    unfold sampleArtist sampleTrack
    rw [scenario_aggregate]
    simp [score]
  rw [hs]
  exact ⟨rfl, by decide, by decide⟩

/-- C10, amended. In the single-artist, single-track scenario with track popularity 50 the
average popularity is 50 and `getBasic` of it is "Indie kid"; the handler writes one response,
which is the rendered page with score 50 and description "Indie kid" (or the error page when
the least popular artist is undefined because the artist's popularity is not below 101). -/
theorem scenario_label (id name : String) (popularity : ℚ) (images : List Image)
    (trackId trackName artistName : String) (album : Album)
    (genreMap : JMap String GenreData) (fetchArtists : List String → Option (List Artist)) :
    score (aggregate [popArtist id name popularity images]
        [popTrack trackId trackName id artistName album]) 1 = 50
    ∧ getBasic (score (aggregate [popArtist id name popularity images]
        [popTrack trackId trackName id artistName album]) 1) = "Indie kid"
    ∧ callback genreMap fetchArtists [popTrack trackId trackName id artistName album]
          [popArtist id name popularity images]
        = (oppLoop genreMap 3 [("pop", 3)] []).map (fun opps =>
            [renderResult (aggregate [popArtist id name popularity images]
              [popTrack trackId trackName id artistName album]) 1 opps])
    ∧ ∀ opps : JMap String OppItem,
        renderResult (aggregate [popArtist id name popularity images]
            [popTrack trackId trackName id artistName album]) 1 opps
          = if popularity < 101 then
              Response.render
                { loves := [getImageUrl album.images]
                  hates := hates opps
                  score := 50
                  desc := "Indie kid"
                  trackUrl := getImageUrl album.images
                  trackName := trackName
                  artistUrl := getImageUrl images
                  artistName := name }
            else Response.sendFile "error.html" := by
  have hs : score (aggregate [popArtist id name popularity images]
      [popTrack trackId trackName id artistName album]) 1 = 50 := by
    rw [scenario_aggregate]
    simp [score]
  have hb : getBasic 50 = "Indie kid" := by decide
  refine ⟨hs, by rw [hs, hb], ?_, ?_⟩
  · unfold callback
    simp only [scenario_aggregate]
    simp [lookupBatches, JMap.size, promiseAll, resolverFold]
    cases oppLoop genreMap 3 [("pop", 3)] [] <;> simp
  · intro opps
    unfold renderResult
    rw [hs, hb, scenario_aggregate]
    by_cases h : popularity < 101 <;> simp [h, popTrack, popArtist]

/-! ## Positive and growing maps -/

theorem JMap.mem_set {κ ν : Type} [DecidableEq κ] (m : JMap κ ν) (k : κ) (v : ν) (e : κ × ν)
    (h : e ∈ JMap.set m k v) : e ∈ m ∨ e = (k, v) := by
  induction m with
  | nil =>
    simp only [JMap.set, List.mem_singleton] at h
    exact Or.inr h
  | cons x rest ih =>
    obtain ⟨a, b⟩ := x
    unfold JMap.set at h
    split_ifs at h with hk
    · rcases List.mem_cons.1 h with h1 | h1
      · exact Or.inr h1
      · exact Or.inl (List.mem_cons_of_mem _ h1)
    · rcases List.mem_cons.1 h with h1 | h1
      · exact Or.inl (h1 ▸ List.mem_cons_self _ _)
      · rcases ih h1 with h2 | h2
        · exact Or.inl (List.mem_cons_of_mem _ h2)
        · exact Or.inr h2

theorem JMap.mem_of_get {κ ν : Type} [DecidableEq κ] (m : JMap κ ν) (k : κ) (v : ν)
    (h : JMap.get m k = some v) : (k, v) ∈ m := by
  induction m with
  | nil => simp [JMap.get] at h
  | cons x rest ih =>
    obtain ⟨a, b⟩ := x
    unfold JMap.get at h
    split_ifs at h with hk
    · simp only [Option.some.injEq] at h
      subst hk h
      exact List.mem_cons_self _ _
    · exact List.mem_cons_of_mem _ (ih h)

theorem allPos_accumulate (m : JMap String ℚ) (k : String) (d : ℚ) (hd : 0 < d)
    (hm : AllPos m) : AllPos (accumulate m k d) := by
  intro e he
  unfold accumulate at he
  cases hg : JMap.get m k with
  | none =>
    rw [hg] at he
    rcases JMap.mem_set _ _ _ _ he with h | h
    · exact hm e h
    · rw [h]
      exact hd
  | some old =>
    rw [hg] at he
    rcases JMap.mem_set _ _ _ _ he with h | h
    · exact hm e h
    · rw [h]
      have := hm _ (JMap.mem_of_get m k old hg)
      simp only at this ⊢
      linarith

theorem grows_accumulate (m : JMap String ℚ) (k : String) (d : ℚ) (hd : 0 ≤ d) :
    Grows m (accumulate m k d) := by
  intro g
  rw [has_accumulate, weightOf_accumulate]
  refine ⟨fun h => by simp [h], ?_⟩
  split_ifs <;> linarith

theorem grows_refl (m : JMap String ℚ) : Grows m m :=
  fun _ => ⟨id, le_refl _⟩

theorem grows_trans (a b c : JMap String ℚ) (h1 : Grows a b) (h2 : Grows b c) : Grows a c :=
  fun g => ⟨fun h => (h2 g).1 ((h1 g).1 h), le_trans (h1 g).2 (h2 g).2⟩

theorem sameFrame_refl (st : State) : SameFrame st st :=
  ⟨rfl, rfl, rfl, rfl, rfl, rfl, rfl, rfl⟩

theorem sameFrame_trans (a b c : State) (h1 : SameFrame a b) (h2 : SameFrame b c) :
    SameFrame a c := by
  obtain ⟨a1, a2, a3, a4, a5, a6, a7, a8⟩ := h1
  obtain ⟨b1, b2, b3, b4, b5, b6, b7, b8⟩ := h2
  exact ⟨b1.trans a1, b2.trans a2, b3.trans a3, b4.trans a4, b5.trans a5, b6.trans a6,
    b7.trans a7, b8.trans a8⟩

theorem foldlM_some_of_step {σ α : Type} (f : σ → α → Option σ) (Inv : σ → Prop)
    (R : σ → σ → Prop) (hrefl : ∀ s, R s s) (htrans : ∀ a b c, R a b → R b c → R a c)
    (l : List α)
    (hstep : ∀ s, Inv s → ∀ a ∈ l, ∃ s', f s a = some s' ∧ Inv s' ∧ R s s')
    (s : σ) (hs : Inv s) : ∃ s', l.foldlM f s = some s' ∧ Inv s' ∧ R s s' := by
  induction l generalizing s with
  | nil => exact ⟨s, rfl, hs, hrefl s⟩
  | cons a rest ih =>
    obtain ⟨s1, e1, i1, r1⟩ := hstep s hs a (List.mem_cons_self _ _)
    obtain ⟨s2, e2, i2, r2⟩ :=
      ih (fun s hs b hb => hstep s hs b (List.mem_cons_of_mem _ hb)) s1 i1
    refine ⟨s2, ?_, i2, htrans _ _ _ r1 r2⟩
    rw [List.foldlM_cons, e1]
    exact e2

theorem foldlM_rel_of_some {σ α : Type} (f : σ → α → Option σ)
    (R : σ → σ → Prop) (hrefl : ∀ s, R s s) (htrans : ∀ a b c, R a b → R b c → R a c)
    (hstep : ∀ s a s', f s a = some s' → R s s')
    (l : List α) (s s' : σ) (h : l.foldlM f s = some s') : R s s' := by
  induction l generalizing s with
  | nil =>
    simp only [List.foldlM_nil] at h
    cases h
    exact hrefl _
  | cons a rest ih =>
    rw [List.foldlM_cons] at h
    cases e : f s a with
    | none => simp [e] at h
    | some s1 =>
      rw [e] at h
      exact htrans _ _ _ (hstep s a s1 e) (ih s1 h)

/-! ## The resolver fold over every reply -/

theorem foldRel_refl (st : State) : FoldRel st st :=
  ⟨sameFrame_refl st, le_refl _, fun _ => ⟨grows_refl _, id⟩⟩

theorem foldRel_trans (a b c : State) (h1 : FoldRel a b) (h2 : FoldRel b c) : FoldRel a c := by
  obtain ⟨f1, m1, p1⟩ := h1
  obtain ⟨f2, m2, p2⟩ := h2
  refine ⟨sameFrame_trans a b c f1 f2, le_trans m1 m2, fun hp => ?_⟩
  obtain ⟨g1, q1⟩ := p1 hp
  obtain ⟨g2, q2⟩ := p2 (by rw [f1.1]; exact hp)
  exact ⟨grows_trans _ _ _ g1 g2, fun h => q2 (q1 h)⟩

theorem foldGenre_rel (id : String) (st : State) (genre : String) (st' : State)
    (h : foldGenre id st genre = some st') : FoldRel st st' := by
  unfold foldGenre at h
  cases hw : JMap.get st.artistWeights id with
  | none => simp [hw] at h
  | some w =>
    have hacc : st'.genreWeights = accumulate st.genreWeights genre w := by
      rw [hw] at h
      simp only [Option.some.injEq] at h
      rw [← h]
      unfold accumulate
      cases JMap.get st.genreWeights genre <;> rfl
    rw [hw] at h
    simp only [Option.some.injEq] at h
    refine ⟨?_, ?_, fun hp => ?_⟩
    · rw [← h]
      exact ⟨rfl, rfl, rfl, rfl, rfl, rfl, rfl, rfl⟩
    · rw [← h]
      simp only
      split_ifs with hc
      · exact le_of_lt hc
      · exact le_refl _
    · have hpos : 0 < w := hp _ (JMap.mem_of_get _ _ _ hw)
      rw [hacc]
      exact ⟨grows_accumulate _ _ _ (le_of_lt hpos), allPos_accumulate _ _ _ hpos⟩

theorem foldArtist_rel (st : State) (artist : Artist) (st' : State)
    (h : foldArtist st artist = some st') : FoldRel st st' :=
  foldlM_rel_of_some (foldGenre artist.id) FoldRel foldRel_refl foldRel_trans
    (foldGenre_rel artist.id) artist.genres st st' h

theorem foldArr_rel (st : State) (arr : List Artist) (st' : State)
    (h : foldArr st arr = some st') : FoldRel st st' :=
  foldlM_rel_of_some foldArtist FoldRel foldRel_refl foldRel_trans foldArtist_rel arr st st' h

theorem resolverFold_rel (st : State) (artistArrs : List (List Artist)) (st' : State)
    (h : resolverFold st artistArrs = some st') : FoldRel st st' :=
  foldlM_rel_of_some foldArr FoldRel foldRel_refl foldRel_trans foldArr_rel artistArrs st st' h

theorem foldArtist_total (aw : JMap String ℚ) (st : State) (hs : st.artistWeights = aw)
    (artist : Artist) (hk : JMap.has aw artist.id = true) :
    ∃ st', foldArtist st artist = some st' ∧ st'.artistWeights = aw ∧ True := by
  apply foldlM_some_of_step (foldGenre artist.id) (fun s => s.artistWeights = aw)
    (fun _ _ => True) (fun _ => trivial) (fun _ _ _ _ _ => trivial) artist.genres _ st hs
  intro s hs' genre _
  unfold JMap.has at hk
  cases hw : JMap.get aw artist.id with
  | none => simp [hw] at hk
  | some w =>
    obtain ⟨s', e, a, -, -⟩ := foldGenre_eq artist.id s genre w (by rw [hs']; exact hw)
    exact ⟨s', e, a.trans hs', trivial⟩

theorem resolverFold_total (st : State) (artistArrs : List (List Artist))
    (h : residualKeys st.artistWeights artistArrs = true) :
    ∃ st', resolverFold st artistArrs = some st' := by
  have key := foldlM_some_of_step foldArr (fun s => s.artistWeights = st.artistWeights)
    (fun _ _ => True) (fun _ => trivial) (fun _ _ _ _ _ => trivial) artistArrs
    (fun s hs arr harr => by
      have harr' : arr.all (fun artist => JMap.has st.artistWeights artist.id) = true := by
        unfold residualKeys at h
        exact (List.all_eq_true.1 h) arr harr
      exact foldlM_some_of_step foldArtist (fun s => s.artistWeights = st.artistWeights)
        (fun _ _ => True) (fun _ => trivial) (fun _ _ _ _ _ => trivial) arr
        (fun s hs artist hartist =>
          foldArtist_total st.artistWeights s hs artist ((List.all_eq_true.1 harr') artist hartist))
        s hs)
    st rfl
  obtain ⟨st', e, -, -⟩ := key
  exact ⟨st', e⟩

/-- C11, as stated, fails: after folding the one residual artist of weight 5, returned with
the genres {jazz}, `artistWeights` still holds its entry. -/
theorem residual_not_emptied :
    ∃ st', resolverFold jazzState [[jazzArtist]] = some st'
      ∧ st'.artistWeights = [("x", 5)] ∧ st'.artistWeights ≠ [] := by
  obtain ⟨st', e⟩ := resolverFold_total jazzState [[jazzArtist]] (by decide)
  have hf := (resolverFold_rel _ _ _ e).1.1
  refine ⟨st', e, hf, ?_⟩
  rw [hf]
  decide

/-- C11, amended. The resolver fold leaves the residual as it was: when every returned artist
is a residual key the fold succeeds and `artistWeights` afterwards equals `artistWeights`
before, so no entry is removed (and every artist of a non-empty residual is still there). -/
theorem resolverFold_keeps_residual (st : State) (artistArrs : List (List Artist))
    (h : residualKeys st.artistWeights artistArrs = true) :
    ∃ st', resolverFold st artistArrs = some st'
      ∧ st'.artistWeights = st.artistWeights
      ∧ JMap.size st'.artistWeights = JMap.size st.artistWeights := by
  obtain ⟨st', e⟩ := resolverFold_total st artistArrs h
  have hf := (resolverFold_rel _ _ _ e).1.1
  exact ⟨st', e, hf, by rw [hf]⟩

theorem resolverFold_keeps_residual_witness :
    residualKeys jazzState.artistWeights [[jazzArtist]] = true
    ∧ ∃ st', resolverFold jazzState [[jazzArtist]] = some st'
      ∧ st'.artistWeights = jazzState.artistWeights
      ∧ JMap.size st'.artistWeights = JMap.size jazzState.artistWeights :=
  ⟨by decide, resolverFold_keeps_residual jazzState [[jazzArtist]] (by decide)⟩

/-- C12. Folding a returned artist whose genre set is empty changes nothing: the fold returns
the state it was given, so `genreWeights` has the same keys and values and `max` is unchanged,
whether or not the artist is a residual key; the same holds for a reply made of that artist
alone. -/
theorem foldArtist_no_genres (st : State) (id name : String) (popularity : ℚ)
    (images : List Image) :
    foldArtist st (untaggedArtist id name popularity images) = some st
    ∧ resolverFold st [[untaggedArtist id name popularity images]] = some st
    ∧ ∀ st', foldArtist st (untaggedArtist id name popularity images) = some st' →
        st'.genreWeights = st.genreWeights ∧ st'.max = st.max := by
  have h1 : foldArtist st (untaggedArtist id name popularity images) = some st := rfl
  refine ⟨h1, ?_, ?_⟩
  · simp [resolverFold, foldArr, h1]
  · intro st' h
    rw [h1] at h
    cases h
    exact ⟨rfl, rfl⟩

/-! ## Images -/

/-- C17. The function `getImageUrl` returns the url of the image at index 1 when the sequence
has two or more entries, the url of the image at index 0 when it has exactly one, and the
fixed placeholder when it is empty; the index it reads exists in each case. -/
theorem getImageUrl_spec (images : List Image) :
    (2 ≤ images.length → ∃ img, images[1]? = some img ∧ getImageUrl images = img.url)
    ∧ (images.length = 1 → ∃ img, images[0]? = some img ∧ getImageUrl images = img.url)
    ∧ (images.length = 0 →
        getImageUrl images = "https://daneeee.blob.core.windows.net/images/noimage.jpg") := by
  match images with
  | [] =>
    refine ⟨fun h => ?_, fun h => ?_, fun _ => rfl⟩
    · simp at h
    · simp at h
  | [a] =>
    refine ⟨fun h => ?_, fun _ => ⟨a, by simp, rfl⟩, fun h => ?_⟩
    · simp at h
    · simp at h
  | a :: b :: rest =>
    refine ⟨fun _ => ⟨b, by simp, rfl⟩, fun h => ?_, fun h => ?_⟩
    · simp at h
    · simp at h

theorem getImageUrl_spec_witness :
    (2 ≤ [Image.mk "big", Image.mk "mid", Image.mk "small"].length
      ∧ ∃ img, [Image.mk "big", Image.mk "mid", Image.mk "small"][1]? = some img
          ∧ getImageUrl [Image.mk "big", Image.mk "mid", Image.mk "small"] = img.url)
    ∧ ([Image.mk "only"].length = 1
      ∧ ∃ img, [Image.mk "only"][0]? = some img ∧ getImageUrl [Image.mk "only"] = img.url)
    ∧ (([] : List Image).length = 0
      ∧ getImageUrl [] = "https://daneeee.blob.core.windows.net/images/noimage.jpg") :=
  ⟨⟨by decide, (getImageUrl_spec [Image.mk "big", Image.mk "mid", Image.mk "small"]).1
      (by decide)⟩,
    ⟨by decide, (getImageUrl_spec [Image.mk "only"]).2.1 (by decide)⟩,
    ⟨by decide, (getImageUrl_spec []).2.2 (by decide)⟩⟩

/-! ## Lookup batching -/

theorem batchLoop_spec (l : List String) (n : Nat) :
    ∀ (q : Nat) (ps : List (List String)), l.length - q = n →
      (batchLoop l q ps).1.flatten = ps.flatten ++ (l.drop q).take ((batchLoop l q ps).2 - q)
      ∧ l.length - (batchLoop l q ps).2 ≤ 50
      ∧ (1 ≤ l.length - q → 1 ≤ l.length - (batchLoop l q ps).2)
      ∧ (∃ k, (batchLoop l q ps).2 = q + 50 * k ∧ (batchLoop l q ps).1.length = ps.length + k)
      ∧ ∀ b ∈ (batchLoop l q ps).1, b ∈ ps ∨ b.length = 50 := by
  induction n using Nat.strong_induction_on with
  | _ n ih =>
    intro q ps hn
    rw [batchLoop]
    by_cases hc : l.length - q > LIMIT
    · simp only [hc, if_true]
      have hc' : l.length - q > 50 := hc
      obtain ⟨h1, h2, h3, ⟨k, hk1, hk2⟩, h5⟩ :=
        ih (l.length - (q + LIMIT)) (by simp only [LIMIT] at *; omega) (q + LIMIT)
          (ps ++ [slice l q (q + LIMIT)]) rfl
      have hlen : (slice l q (q + LIMIT)).length = 50 := by
        simp only [slice, LIMIT, List.length_take, List.length_drop]
        omega
      refine ⟨?_, h2, fun _ => h3 (by simp only [LIMIT]; omega), ⟨k + 1, ?_, ?_⟩, ?_⟩
      · rw [h1, hk1, List.flatten_append]
        simp only [List.flatten_cons, List.flatten_nil, List.append_nil, slice, LIMIT,
          List.append_assoc]
        congr 1
        have e1 : q + 50 - q = 50 := by omega
        have e2 : q + 50 + 50 * k - (q + 50) = 50 * k := by omega
        have e3 : q + 50 + 50 * k - q = 50 + 50 * k := by omega
        rw [e1, e2, e3, List.take_add, List.drop_drop]
      · rw [hk1]
        simp only [LIMIT]
        omega
      · rw [hk2]
        simp only [List.length_append, List.length_singleton]
        omega
      · intro b hb
        rcases h5 b hb with h | h
        · rcases List.mem_append.1 h with h' | h'
          · exact Or.inl h'
          · rw [List.mem_singleton] at h'
            exact Or.inr (h' ▸ hlen)
        · exact Or.inr h
    · simp only [hc, if_false]
      have hc' : ¬ l.length - q > 50 := hc
      refine ⟨by simp, by omega, fun h => h, ⟨0, by simp, by simp⟩, fun b hb => Or.inl hb⟩

/-- C20. Lookup batching: for a residual with `n >= 1` artist ids the id lists of the issued
lookups, concatenated in issue order, are the list of residual keys, every lookup asks for
between 1 and 50 ids and there are `ceil(n / 50)` lookups; for an empty residual no lookup is
issued, `Promise.all` resolves with no reply whatever the music service would answer, and the
resolver fold returns the state unchanged. -/
theorem lookupBatches_spec (st : State) :
    (1 ≤ JMap.size st.artistWeights →
      (lookupBatches st.artistWeights).flatten = JMap.keys st.artistWeights
      ∧ (∀ b ∈ lookupBatches st.artistWeights, 1 ≤ b.length ∧ b.length ≤ LIMIT)
      ∧ (lookupBatches st.artistWeights).length = (JMap.size st.artistWeights + 49) / 50)
    ∧ (JMap.size st.artistWeights = 0 →
      lookupBatches st.artistWeights = []
      ∧ ∀ fetchArtists : List String → Option (List Artist),
          promiseAll fetchArtists (lookupBatches st.artistWeights) = some []
          ∧ resolverFold st [] = some st) := by
  constructor
  · intro hn
    have hsize : JMap.size st.artistWeights = (JMap.keys st.artistWeights).length := by
      simp [JMap.size, JMap.keys]
    rw [hsize] at hn ⊢
    obtain ⟨h1, h2, h3, ⟨k, hk1, hk2⟩, h5⟩ :=
      batchLoop_spec (JMap.keys st.artistWeights) _ 0 [] rfl
    have hlb : lookupBatches st.artistWeights
        = (batchLoop (JMap.keys st.artistWeights) 0 []).1
          ++ [slice (JMap.keys st.artistWeights) (batchLoop (JMap.keys st.artistWeights) 0 []).2
              (JMap.keys st.artistWeights).length] := by
      unfold lookupBatches
      rw [hsize, if_pos (by omega)]
    have hlast : (slice (JMap.keys st.artistWeights)
        (batchLoop (JMap.keys st.artistWeights) 0 []).2
        (JMap.keys st.artistWeights).length).length
          = (JMap.keys st.artistWeights).length
            - (batchLoop (JMap.keys st.artistWeights) 0 []).2 := by
      simp [slice]
    have h3' := h3 (by omega)
    rw [hlb]
    refine ⟨?_, ?_, ?_⟩
    · rw [List.flatten_append, h1]
      simp only [List.flatten_nil, List.nil_append, List.drop_zero, Nat.sub_zero,
        List.flatten_cons, List.append_nil, slice]
      rw [List.take_of_length_le (l := List.drop _ _) (by simp), List.take_append_drop]
    · intro b hb
      rcases List.mem_append.1 hb with hb' | hb'
      · rcases h5 b hb' with h | h
        · simp at h
        · rw [h]
          simp [LIMIT]
      · rw [List.mem_singleton] at hb'
        rw [hb', hlast]
        simp only [LIMIT]
        omega
    · rw [List.length_append, hk2, List.length_singleton]
      simp only [List.length_nil]
      omega
  · intro h0
    have hl : lookupBatches st.artistWeights = [] := by
      unfold lookupBatches
      rw [h0]
      rfl
    refine ⟨hl, fun fetchArtists => ⟨by rw [hl]; rfl, rfl⟩⟩

theorem lookupBatches_spec_witness :
    (1 ≤ JMap.size bigResidual.artistWeights
      ∧ (lookupBatches bigResidual.artistWeights).flatten = JMap.keys bigResidual.artistWeights
      ∧ (∀ b ∈ lookupBatches bigResidual.artistWeights, 1 ≤ b.length ∧ b.length ≤ LIMIT)
      ∧ (lookupBatches bigResidual.artistWeights).length
          = (JMap.size bigResidual.artistWeights + 49) / 50)
    ∧ (JMap.size State.init.artistWeights = 0
      ∧ lookupBatches State.init.artistWeights = []
      ∧ ∀ fetchArtists : List String → Option (List Artist),
          promiseAll fetchArtists (lookupBatches State.init.artistWeights) = some []
          ∧ resolverFold State.init [] = some State.init) :=
  ⟨⟨by decide, (lookupBatches_spec bigResidual).1 (by decide)⟩,
    ⟨by decide, (lookupBatches_spec State.init).2 (by decide)⟩⟩

/-! ## Least-popular track and artist -/

theorem foldl_rel {σ α : Type} (f : σ → α → σ) (R : σ → σ → Prop) (hrefl : ∀ s, R s s)
    (htrans : ∀ a b c, R a b → R b c → R a c) (l : List α)
    (hstep : ∀ s, ∀ a ∈ l, R s (f s a)) (s : σ) : R s (l.foldl f s) := by
  induction l generalizing s with
  | nil => exact hrefl s
  | cons a rest ih =>
    rw [List.foldl_cons]
    exact htrans _ _ _ (hstep s a (List.mem_cons_self _ _))
      (ih (fun s b hb => hstep s b (List.mem_cons_of_mem _ hb)) _)

theorem sameMin_refl (st : State) : SameMin st st := ⟨rfl, rfl, rfl, rfl⟩

theorem sameMin_trans (a b c : State) (h1 : SameMin a b) (h2 : SameMin b c) : SameMin a c := by
  obtain ⟨a1, a2, a3, a4⟩ := h1
  obtain ⟨b1, b2, b3, b4⟩ := h2
  exact ⟨b1.trans a1, b2.trans a2, b3.trans a3, b4.trans a4⟩

theorem trackArtistStep_sameMin (B i : Nat) (t : Track) (st : State) (a : TrackArtist) :
    SameMin st (trackArtistStep B i t st a) := by
  unfold trackArtistStep
  cases JMap.get st.artistGenres a.id with
  | none => exact ⟨rfl, rfl, rfl, rfl⟩
  | some genres =>
    exact foldl_rel (addTrackGenre B i t) SameMin sameMin_refl sameMin_trans genres
      (fun s g _ => ⟨rfl, rfl, rfl, rfl⟩) st

theorem trackStep_min (B i : Nat) (st : State) (t : Track) :
    ((trackStep B i st t).minPopTrack, (trackStep B i st t).minPopTrackId)
        = (if t.popularity < st.minPopTrack then (t.popularity, some t)
            else (st.minPopTrack, st.minPopTrackId))
    ∧ (trackStep B i st t).minPopArtist = st.minPopArtist
    ∧ (trackStep B i st t).minPopArtistId = st.minPopArtistId := by
  unfold trackStep
  simp only
  split_ifs with h1 h2 h2
  all_goals
    refine ⟨?_, ?_, ?_⟩
    all_goals
      first
      | rw [(foldl_rel (trackArtistStep B i t) SameMin sameMin_refl sameMin_trans t.artists
          (fun s a _ => trackArtistStep_sameMin B i t s a) _).1,
          (foldl_rel (trackArtistStep B i t) SameMin sameMin_refl sameMin_trans t.artists
          (fun s a _ => trackArtistStep_sameMin B i t s a) _).2.1]
      | rw [(foldl_rel (trackArtistStep B i t) SameMin sameMin_refl sameMin_trans t.artists
          (fun s a _ => trackArtistStep_sameMin B i t s a) _).2.2.1]
      | rw [(foldl_rel (trackArtistStep B i t) SameMin sameMin_refl sameMin_trans t.artists
          (fun s a _ => trackArtistStep_sameMin B i t s a) _).2.2.2]

theorem trackLoop_min (B : Nat) (rest : List Track) (i : Nat) (st : State) :
    ((trackLoop B i rest st).minPopTrack, (trackLoop B i rest st).minPopTrackId)
        = minScan Track.popularity (st.minPopTrack, st.minPopTrackId) rest
    ∧ (trackLoop B i rest st).minPopArtist = st.minPopArtist
    ∧ (trackLoop B i rest st).minPopArtistId = st.minPopArtistId := by
  induction rest generalizing i st with
  | nil => exact ⟨rfl, rfl, rfl⟩
  | cons t rest ih =>
    obtain ⟨h1, h2, h3⟩ := ih (i + 1) (trackStep B i st t)
    obtain ⟨k1, k2, k3⟩ := trackStep_min B i st t
    rw [trackLoop]
    refine ⟨?_, h2.trans k2, h3.trans k3⟩
    rw [h1, k1]
    simp only [minScan, List.foldl_cons]

theorem artistLoop_min (N : Nat) (rest : List Artist) (i : Nat) (st : State) :
    ((artistLoop N i rest st).minPopArtist, (artistLoop N i rest st).minPopArtistId)
        = minScan Artist.popularity (st.minPopArtist, st.minPopArtistId) rest
    ∧ (artistLoop N i rest st).minPopTrack = st.minPopTrack
    ∧ (artistLoop N i rest st).minPopTrackId = st.minPopTrackId := by
  induction rest generalizing i st with
  | nil => exact ⟨rfl, rfl, rfl⟩
  | cons a rest ih =>
    obtain ⟨h1, h2, h3⟩ := ih (i + 1) (artistStep N i st a)
    rw [artistLoop]
    have k : ((artistStep N i st a).minPopArtist, (artistStep N i st a).minPopArtistId)
          = (if a.popularity < st.minPopArtist then (a.popularity, some a)
              else (st.minPopArtist, st.minPopArtistId))
        ∧ (artistStep N i st a).minPopTrack = st.minPopTrack
        ∧ (artistStep N i st a).minPopTrackId = st.minPopTrackId := by
      unfold artistStep
      by_cases h : a.popularity < st.minPopArtist <;> simp [h]
    refine ⟨?_, h2.trans k.2.1, h3.trans k.2.2⟩
    rw [h1, k.1]
    simp only [minScan, List.foldl_cons]

theorem minScan_spec {α : Type} (pop : α → ℚ) (l : List α) (hne : l ≠ [])
    (hb : ∀ x ∈ l, pop x ≤ 100) :
    ∃ (i : Nat) (t : α), l[i]? = some t
      ∧ minScan pop (101, none) l = (pop t, some t)
      ∧ (∀ x ∈ l, pop t ≤ pop x)
      ∧ ∀ (j : Nat) (x : α), j < i → l[j]? = some x → pop t < pop x := by
  induction l using List.reverseRecOn with
  | nil => exact absurd rfl hne
  | append_singleton l a ih =>
    have ha : pop a ≤ 100 := hb a (by simp)
    have hstep : minScan pop (101, none) (l ++ [a])
        = if pop a < (minScan pop (101, none) l).1 then (pop a, some a)
          else minScan pop (101, none) l := by
      simp [minScan, List.foldl_append]
    by_cases hl : l = []
    · subst hl
      refine ⟨0, a, by simp, ?_, ?_, ?_⟩
      · rw [hstep]
        have : pop a < 101 := by linarith
        simp [minScan, this]
      · intro x hx
        simp only [List.nil_append, List.mem_singleton] at hx
        rw [hx]
      · intro j x hj
        omega
    · obtain ⟨i, t, hi, hm, hmin, hfirst⟩ :=
        ih hl (fun x hx => hb x (List.mem_append_left _ hx))
      have hil : i < l.length := by
        by_contra hc
        rw [List.getElem?_eq_none (by omega)] at hi
        cases hi
      by_cases hlt : pop a < pop t
      · refine ⟨l.length, a, by simp, ?_, ?_, ?_⟩
        · rw [hstep, hm]
          simp [hlt]
        · intro x hx
          rcases List.mem_append.1 hx with h | h
          · exact le_of_lt (lt_of_lt_of_le hlt (hmin x h))
          · rw [List.mem_singleton] at h
            rw [h]
        · intro j x hj hx
          rw [List.getElem?_append_left hj] at hx
          exact lt_of_lt_of_le hlt (hmin x (List.getElem?_mem hx))
      · refine ⟨i, t, ?_, ?_, ?_, ?_⟩
        · rw [List.getElem?_append_left hil]
          exact hi
        · rw [hstep, hm]
          simp [hlt]
        · intro x hx
          rcases List.mem_append.1 hx with h | h
          · exact hmin x h
          · rw [List.mem_singleton] at h
            rw [h]
            exact not_lt.1 hlt
        · intro j x hj hx
          rw [List.getElem?_append_left (by omega)] at hx
          exact hfirst j x hj hx

/-- C16. Least-popular selection: for a non-empty tracks list whose popularities lie in
0..100 the track kept in `minPopTrackId` after both passes is an element of the list of
minimum popularity, and every track at a smaller rank index is strictly more popular, so on a
tie it is the one at the smallest index; the same holds for `minPopArtistId` and a non-empty
artists list; the resolver fold changes neither. -/
theorem least_popular_selection (artists : List Artist) (tracks : List Track) :
    (tracks ≠ [] → (∀ t ∈ tracks, 0 ≤ t.popularity ∧ t.popularity ≤ 100) →
      ∃ (i : Nat) (t : Track), tracks[i]? = some t
        ∧ (aggregate artists tracks).minPopTrackId = some t
        ∧ (∀ t' ∈ tracks, t.popularity ≤ t'.popularity)
        ∧ ∀ (j : Nat) (t' : Track), j < i → tracks[j]? = some t' →
            t.popularity < t'.popularity)
    ∧ (artists ≠ [] → (∀ a ∈ artists, 0 ≤ a.popularity ∧ a.popularity ≤ 100) →
      ∃ (i : Nat) (a : Artist), artists[i]? = some a
        ∧ (aggregate artists tracks).minPopArtistId = some a
        ∧ (∀ a' ∈ artists, a.popularity ≤ a'.popularity)
        ∧ ∀ (j : Nat) (a' : Artist), j < i → artists[j]? = some a' →
            a.popularity < a'.popularity)
    ∧ ∀ (artistArrs : List (List Artist)) (st' : State),
        resolverFold (aggregate artists tracks) artistArrs = some st' →
        st'.minPopTrackId = (aggregate artists tracks).minPopTrackId
        ∧ st'.minPopArtistId = (aggregate artists tracks).minPopArtistId := by
  obtain ⟨t1, t2, t3⟩ := trackLoop_min (tracks.length * 2) tracks 0 (pass1 artists)
  obtain ⟨a1, a2, a3⟩ := artistLoop_min artists.length artists 0 State.init
  refine ⟨fun hne hb => ?_, fun hne hb => ?_, fun artistArrs st' h => ?_⟩
  · obtain ⟨i, t, hi, hm, hmin, hfirst⟩ :=
      minScan_spec Track.popularity tracks hne (fun x hx => (hb x hx).2)
    refine ⟨i, t, hi, ?_, hmin, hfirst⟩
    have e : (pass1 artists).minPopTrack = 101 ∧ (pass1 artists).minPopTrackId = none :=
      ⟨a2, a3⟩
    rw [e.1, e.2, hm] at t1
    exact (Prod.mk.inj t1).2
  · obtain ⟨i, a, hi, hm, hmin, hfirst⟩ :=
      minScan_spec Artist.popularity artists hne (fun x hx => (hb x hx).2)
    refine ⟨i, a, hi, ?_, hmin, hfirst⟩
    have e : (State.init).minPopArtist = 101 ∧ (State.init).minPopArtistId = none :=
      ⟨rfl, rfl⟩
    rw [e.1, e.2, hm] at a1
    exact t3.trans (Prod.mk.inj a1).2
  · obtain ⟨-, -, -, -, -, h6, -, h8⟩ := (resolverFold_rel _ _ _ h).1
    exact ⟨h6, h8⟩

theorem least_popular_selection_witness :
    (tiedTracks ≠ [] ∧ (∀ t ∈ tiedTracks, 0 ≤ t.popularity ∧ t.popularity ≤ 100)
      ∧ ∃ (i : Nat) (t : Track), tiedTracks[i]? = some t
        ∧ (aggregate twoArtists tiedTracks).minPopTrackId = some t
        ∧ (∀ t' ∈ tiedTracks, t.popularity ≤ t'.popularity)
        ∧ ∀ (j : Nat) (t' : Track), j < i → tiedTracks[j]? = some t' →
            t.popularity < t'.popularity)
    ∧ (twoArtists ≠ [] ∧ (∀ a ∈ twoArtists, 0 ≤ a.popularity ∧ a.popularity ≤ 100)
      ∧ ∃ (i : Nat) (a : Artist), twoArtists[i]? = some a
        ∧ (aggregate twoArtists tiedTracks).minPopArtistId = some a
        ∧ (∀ a' ∈ twoArtists, a.popularity ≤ a'.popularity)
        ∧ ∀ (j : Nat) (a' : Artist), j < i → twoArtists[j]? = some a' →
            a.popularity < a'.popularity) :=
  ⟨⟨by decide, by decide,
      (least_popular_selection twoArtists tiedTracks).1 (by decide) (by decide)⟩,
    ⟨by decide, by decide,
      (least_popular_selection twoArtists tiedTracks).2.1 (by decide) (by decide)⟩⟩

/-! ## Weights across the passes -/

theorem passRel_refl (st : State) : PassRel st st := ⟨id, id, grows_refl _⟩

theorem passRel_trans (a b c : State) (h1 : PassRel a b) (h2 : PassRel b c) : PassRel a c :=
  ⟨fun h => h2.1 (h1.1 h), fun h => h2.2.1 (h1.2.1 h), grows_trans _ _ _ h1.2.2 h2.2.2⟩

theorem trackShare_pos (B i : Nat) (t : Track) (hi : i < B) (ht : t.artists ≠ []) :
    0 < trackShare B i t := by
  unfold trackShare
  apply div_pos
  · have : (i : ℚ) < (B : ℚ) := by exact_mod_cast hi
    linarith
  · have : 0 < t.artists.length := List.length_pos.2 ht
    exact_mod_cast this

theorem addTrackGenre_passRel (B i : Nat) (t : Track) (h : 0 < trackShare B i t) (st : State)
    (genre : String) : PassRel st (addTrackGenre B i t st genre) := by
  unfold PassRel
  rw [addTrackGenre_genreWeights, addTrackGenre_artistWeights]
  exact ⟨allPos_accumulate _ _ _ h, id, grows_accumulate _ _ _ (le_of_lt h)⟩

theorem trackArtistStep_passRel (B i : Nat) (t : Track) (h : 0 < trackShare B i t) (st : State)
    (a : TrackArtist) : PassRel st (trackArtistStep B i t st a) := by
  unfold trackArtistStep
  cases JMap.get st.artistGenres a.id with
  | some genres =>
    exact foldl_rel (addTrackGenre B i t) PassRel passRel_refl passRel_trans genres
      (fun s g _ => addTrackGenre_passRel B i t h s g) st
  | none =>
    refine ⟨id, ?_, grows_refl _⟩
    simp only [addResidual_eq]
    exact allPos_accumulate _ _ _ h

theorem trackStep_passRel (B i : Nat) (hi : i < B) (st : State) (t : Track) :
    PassRel st (trackStep B i st t) := by
  obtain ⟨st3, e, e1, e2, e3⟩ := trackStep_eq B i st t
  have h : PassRel st3 (t.artists.foldl (trackArtistStep B i t) st3) :=
    foldl_rel (trackArtistStep B i t) PassRel passRel_refl passRel_trans t.artists
      (fun s a ha => trackArtistStep_passRel B i t
        (trackShare_pos B i t hi (List.ne_nil_of_mem ha)) s a) st3
  unfold PassRel at h ⊢
  rw [e2, e3] at h
  rw [e]
  exact h

theorem trackLoop_passRel (B : Nat) (rest : List Track) (i : Nat) (hi : i + rest.length ≤ B)
    (st : State) : PassRel st (trackLoop B i rest st) := by
  induction rest generalizing i st with
  | nil => exact passRel_refl st
  | cons t rest ih =>
    rw [trackLoop]
    simp only [List.length_cons] at hi
    exact passRel_trans _ _ _ (trackStep_passRel B i (by omega) st t)
      (ih (i + 1) (by omega) _)

theorem artistLoop_passRel (N : Nat) (rest : List Artist) (i : Nat) (hi : i + rest.length ≤ N)
    (st : State) : PassRel st (artistLoop N i rest st) := by
  induction rest generalizing i st with
  | nil => exact passRel_refl st
  | cons a rest ih =>
    rw [artistLoop]
    simp only [List.length_cons] at hi
    refine passRel_trans _ _ _ ?_ (ih (i + 1) (by omega) _)
    have hpos : (0 : ℚ) < (N : ℚ) - (i : ℚ) := by
      have : (i : ℚ) < (N : ℚ) := by exact_mod_cast (show i < N by omega)
      linarith
    unfold PassRel
    rw [artistStep_genreWeights, artistStep_artistWeights]
    have key : ∀ (genres : List String) (m : JMap String ℚ),
        (AllPos m → AllPos (genres.foldl (addArtistGenre N i) m))
        ∧ Grows m (genres.foldl (addArtistGenre N i) m) := by
      intro genres
      induction genres with
      | nil => exact fun m => ⟨id, grows_refl m⟩
      | cons g gs ihg =>
        intro m
        rw [List.foldl_cons, addArtistGenre_eq]
        exact ⟨fun h => (ihg _).1 (allPos_accumulate _ _ _ hpos h),
          grows_trans _ _ _ (grows_accumulate _ _ _ (le_of_lt hpos)) (ihg _).2⟩
    exact ⟨(key _ _).1, id, (key _ _).2⟩

theorem allPos_nil : AllPos [] := fun e he => by simp at he

theorem aggregate_allPos (artists : List Artist) (tracks : List Track) :
    AllPos (pass1 artists).genreWeights
    ∧ AllPos (aggregate artists tracks).genreWeights
    ∧ AllPos (aggregate artists tracks).artistWeights
    ∧ Grows (pass1 artists).genreWeights (aggregate artists tracks).genreWeights := by
  have h1 := artistLoop_passRel artists.length artists 0 (by omega) State.init
  have h2 := trackLoop_passRel (tracks.length * 2) tracks 0 (by omega) (pass1 artists)
  have p1 : AllPos (pass1 artists).genreWeights := h1.1 allPos_nil
  have p2 : AllPos (pass1 artists).artistWeights := h1.2.1 allPos_nil
  exact ⟨p1, h2.1 p1, h2.2.1 p2, h2.2.2⟩

theorem grows_get (m m' : JMap String ℚ) (h : Grows m m') (g : String) (v : ℚ)
    (hv : JMap.get m g = some v) : ∃ v', JMap.get m' g = some v' ∧ v ≤ v' := by
  obtain ⟨h1, h2⟩ := h g
  have hh : JMap.has m g = true := by simp [JMap.has, hv]
  have hh' := h1 hh
  unfold JMap.has at hh'
  cases hv' : JMap.get m' g with
  | none => simp [hv'] at hh'
  | some v' =>
    refine ⟨v', rfl, ?_⟩
    simpa [weightOf, hv, hv'] using h2

/-- C13. For all artists and tracks inputs and all lookup results whose artists are residual
keys, the resolver fold succeeds and every value of the final `genreWeights` map is at least
0, indeed strictly positive; every residual weight is strictly positive, and so is the weight
`(2T - i) / k` of a track at rank `i < T` with `k >= 1` artists. -/
theorem final_weights_nonneg (artists : List Artist) (tracks : List Track)
    (artistArrs : List (List Artist))
    (h : residualKeys (aggregate artists tracks).artistWeights artistArrs = true) :
    ∃ final, resolverFold (aggregate artists tracks) artistArrs = some final
      ∧ (∀ e ∈ final.genreWeights, 0 ≤ e.2)
      ∧ (∀ e ∈ final.genreWeights, 0 < e.2)
      ∧ (∀ e ∈ (aggregate artists tracks).artistWeights, 0 < e.2)
      ∧ ∀ (i : Nat) (t : Track), i < tracks.length → t.artists ≠ [] →
          0 < trackShare (tracks.length * 2) i t := by
  obtain ⟨final, e⟩ := resolverFold_total _ _ h
  obtain ⟨-, p2, p3, -⟩ := aggregate_allPos artists tracks
  have hf := ((resolverFold_rel _ _ _ e).2.2 p3).2 p2
  exact ⟨final, e, fun x hx => le_of_lt (hf x hx), hf, p3,
    fun i t hi ht => trackShare_pos _ i t (by omega) ht⟩

theorem final_weights_nonneg_witness :
    residualKeys (aggregate twoArtists tiedTracks).artistWeights zzReply = true
    ∧ ∃ final, resolverFold (aggregate twoArtists tiedTracks) zzReply = some final
      ∧ (∀ e ∈ final.genreWeights, 0 ≤ e.2)
      ∧ (∀ e ∈ final.genreWeights, 0 < e.2)
      ∧ (∀ e ∈ (aggregate twoArtists tiedTracks).artistWeights, 0 < e.2)
      ∧ ∀ (i : Nat) (t : Track), i < tiedTracks.length → t.artists ≠ [] →
          0 < trackShare (tiedTracks.length * 2) i t :=
  ⟨by decide, final_weights_nonneg twoArtists tiedTracks zzReply (by decide)⟩

/-- C14. Weights only grow across the passes: a genre that has an entry after Pass 1 has
one after Pass 2 with a value at least as large, and, for lookup results whose artists are
residual keys, the resolver fold succeeds and a genre that has an entry after Pass 2 has one
after the fold with a value at least as large. -/
theorem weights_only_grow (artists : List Artist) (tracks : List Track)
    (artistArrs : List (List Artist))
    (h : residualKeys (aggregate artists tracks).artistWeights artistArrs = true) :
    (∀ (g : String) (v : ℚ), JMap.get (pass1 artists).genreWeights g = some v →
      ∃ v', JMap.get (aggregate artists tracks).genreWeights g = some v' ∧ v ≤ v')
    ∧ ∃ final, resolverFold (aggregate artists tracks) artistArrs = some final
      ∧ ∀ (g : String) (v : ℚ), JMap.get (aggregate artists tracks).genreWeights g = some v →
          ∃ v', JMap.get final.genreWeights g = some v' ∧ v ≤ v' := by
  obtain ⟨final, e⟩ := resolverFold_total _ _ h
  obtain ⟨-, -, p3, p4⟩ := aggregate_allPos artists tracks
  have hg := ((resolverFold_rel _ _ _ e).2.2 p3).1
  exact ⟨fun g v hv => grows_get _ _ p4 g v hv, final, e,
    fun g v hv => grows_get _ _ hg g v hv⟩

theorem weights_only_grow_witness :
    residualKeys (aggregate twoArtists tiedTracks).artistWeights zzReply = true
    ∧ (∀ (g : String) (v : ℚ), JMap.get (pass1 twoArtists).genreWeights g = some v →
      ∃ v', JMap.get (aggregate twoArtists tiedTracks).genreWeights g = some v' ∧ v ≤ v')
    ∧ ∃ final, resolverFold (aggregate twoArtists tiedTracks) zzReply = some final
      ∧ ∀ (g : String) (v : ℚ),
          JMap.get (aggregate twoArtists tiedTracks).genreWeights g = some v →
          ∃ v', JMap.get final.genreWeights g = some v' ∧ v ≤ v' :=
  ⟨by decide, weights_only_grow twoArtists tiedTracks zzReply (by decide)⟩

/-! ## The tracked maximum -/

theorem get_liftWeights (m : JMap String ℚ) (g : String) :
    JMap.get (liftWeights m) g = (JMap.get m g).map some := by
  induction m with
  | nil => rfl
  | cons e rest ih =>
    obtain ⟨a, b⟩ := e
    unfold liftWeights at ih ⊢
    by_cases h : a = g <;> simp [JMap.get, h, ih]

theorem set_liftWeights (m : JMap String ℚ) (g : String) (v : ℚ) :
    JMap.set (liftWeights m) g (some v) = liftWeights (JMap.set m g v) := by
  induction m with
  | nil => rfl
  | cons e rest ih =>
    obtain ⟨a, b⟩ := e
    unfold liftWeights at ih ⊢
    by_cases h : a = g <;> simp [JMap.set, h, ih]

theorem foldGenreJs_max_le (aw : JMap String ℚ) (id : String)
    (acc : JMap String (Option ℚ) × ℚ) (genre : String) :
    acc.2 ≤ (foldGenreJs aw id acc genre).2 := by
  unfold foldGenreJs
  simp only
  split
  · split_ifs with h
    · exact le_of_lt h
    · exact le_refl _
  · exact le_refl _

theorem resolverFoldJs_max_le (aw : JMap String ℚ) (artistArrs : List (List Artist))
    (acc : JMap String (Option ℚ) × ℚ) :
    acc.2 ≤ (resolverFoldJs aw artistArrs acc).2 := by
  unfold resolverFoldJs
  apply foldl_rel _ (fun a b : JMap String (Option ℚ) × ℚ => a.2 ≤ b.2)
    (fun _ => le_refl _) (fun _ _ _ => le_trans)
  intro s arr _
  apply foldl_rel _ (fun a b : JMap String (Option ℚ) × ℚ => a.2 ≤ b.2)
    (fun _ => le_refl _) (fun _ _ _ => le_trans)
  intro s artist _
  apply foldl_rel _ (fun a b : JMap String (Option ℚ) × ℚ => a.2 ≤ b.2)
    (fun _ => le_refl _) (fun _ _ _ => le_trans)
  intro s genre _
  exact foldGenreJs_max_le aw artist.id s genre

theorem foldlM_simulates {σ τ α : Type} (f : σ → α → Option σ) (g : τ → α → τ) (φ : σ → τ)
    (Inv : σ → Prop)
    (hstep : ∀ s a s', Inv s → f s a = some s' → Inv s' ∧ g (φ s) a = φ s')
    (l : List α) (s s' : σ) (hs : Inv s) (h : l.foldlM f s = some s') :
    Inv s' ∧ l.foldl g (φ s) = φ s' := by
  induction l generalizing s with
  | nil =>
    simp only [List.foldlM_nil] at h
    cases h
    exact ⟨hs, rfl⟩
  | cons a rest ih =>
    rw [List.foldlM_cons] at h
    cases e : f s a with
    | none => simp [e] at h
    | some s1 =>
      rw [e] at h
      obtain ⟨i1, g1⟩ := hstep s a s1 hs e
      rw [List.foldl_cons, g1]
      exact ih s1 i1 h

theorem foldGenre_simulates (aw : JMap String ℚ) (id : String) (st : State) (genre : String)
    (st' : State) (hs : st.artistWeights = aw) (h : foldGenre id st genre = some st') :
    st'.artistWeights = aw
    ∧ foldGenreJs aw id (liftWeights st.genreWeights, st.max) genre
        = (liftWeights st'.genreWeights, st'.max) := by
  unfold foldGenre at h
  rw [hs] at h
  unfold foldGenreJs
  cases hw : JMap.get aw id with
  | none => simp [hw] at h
  | some w =>
    rw [hw] at h
    simp only [Option.some.injEq] at h
    rw [← h]
    refine ⟨rfl, ?_⟩
    simp only [get_liftWeights]
    cases hg : JMap.get st.genreWeights genre with
    | none => simp [set_liftWeights]
    | some old => simp [jsAdd, set_liftWeights]

theorem resolverFold_simulates (st : State) (artistArrs : List (List Artist)) (st' : State)
    (h : resolverFold st artistArrs = some st') :
    resolverFoldJs st.artistWeights artistArrs (liftWeights st.genreWeights, st.max)
      = (liftWeights st'.genreWeights, st'.max) := by
  have hArtist : ∀ (s : State) (artist : Artist) (s' : State),
      s.artistWeights = st.artistWeights → foldArtist s artist = some s' →
      s'.artistWeights = st.artistWeights
      ∧ artist.genres.foldl (foldGenreJs st.artistWeights artist.id)
          (liftWeights s.genreWeights, s.max) = (liftWeights s'.genreWeights, s'.max) :=
    fun s artist s' hs h =>
      foldlM_simulates (foldGenre artist.id) (foldGenreJs st.artistWeights artist.id)
        (fun s => (liftWeights s.genreWeights, s.max))
        (fun s => s.artistWeights = st.artistWeights)
        (fun s g s' hs h => foldGenre_simulates st.artistWeights artist.id s g s' hs h)
        artist.genres s s' hs h
  have hArr : ∀ (s : State) (arr : List Artist) (s' : State),
      s.artistWeights = st.artistWeights → foldArr s arr = some s' →
      s'.artistWeights = st.artistWeights
      ∧ arr.foldl (fun acc artist =>
            artist.genres.foldl (foldGenreJs st.artistWeights artist.id) acc)
          (liftWeights s.genreWeights, s.max) = (liftWeights s'.genreWeights, s'.max) :=
    fun s arr s' hs h =>
      foldlM_simulates foldArtist
        (fun acc artist => artist.genres.foldl (foldGenreJs st.artistWeights artist.id) acc)
        (fun s => (liftWeights s.genreWeights, s.max))
        (fun s => s.artistWeights = st.artistWeights) hArtist arr s s' hs h
  exact (foldlM_simulates foldArr
    (fun acc arr => arr.foldl (fun acc artist =>
      artist.genres.foldl (foldGenreJs st.artistWeights artist.id) acc) acc)
    (fun s => (liftWeights s.genreWeights, s.max))
    (fun s => s.artistWeights = st.artistWeights) hArr artistArrs st st' rfl h).2

/-- C15. For every input and every lookup result the tracked maximum after the resolver fold
is at least the tracked maximum at the end of Pass 2.  The fold is taken here for any reply,
also one that names an artist outside the residual (the weights it then stores are not
numbers, the maximum still is); whenever the fold over numbers succeeds it gives the same map
and the same maximum. -/
theorem max_not_lowered (artists : List Artist) (tracks : List Track)
    (artistArrs : List (List Artist)) :
    (aggregate artists tracks).max
        ≤ (resolverFoldJs (aggregate artists tracks).artistWeights artistArrs
            (liftWeights (aggregate artists tracks).genreWeights,
              (aggregate artists tracks).max)).2
    ∧ ∀ st', resolverFold (aggregate artists tracks) artistArrs = some st' →
        resolverFoldJs (aggregate artists tracks).artistWeights artistArrs
            (liftWeights (aggregate artists tracks).genreWeights,
              (aggregate artists tracks).max)
          = (liftWeights st'.genreWeights, st'.max)
        ∧ (aggregate artists tracks).max ≤ st'.max := by
  refine ⟨resolverFoldJs_max_le _ _ _, fun st' h => ⟨resolverFold_simulates _ _ _ h, ?_⟩⟩
  exact (resolverFold_rel _ _ _ h).2.1

/-! ## Empty top-tracks list -/

theorem callback_no_tracks (genreMap : JMap String GenreData)
    (fetchArtists : List String → Option (List Artist)) (artists : List Artist)
    (h : aligned genreMap = true) :
    callback genreMap fetchArtists [] artists
      = some [Response.sendFile "nodata.html", Response.sendFile "error.html"] := by
  have hagg : aggregate artists [] = pass1 artists := rfl
  have haw : (pass1 artists).artistWeights = [] := by
    unfold pass1
    rw [artistLoop_artistWeights]
    rfl
  have hmin : (pass1 artists).minPopTrackId = none :=
    (artistLoop_min artists.length artists 0 State.init).2.2
  unfold callback
  simp only [hagg, haw, lookupBatches, JMap.size, List.length_nil, gt_iff_lt, lt_self_iff_false,
    if_false, promiseAll, resolverFold, List.foldlM_nil, oppLoop_aligned genreMap _ h]
  simp [renderResult, hmin]

/-- C18: what the code does when the top-tracks list is empty.  The "no data" page is sent,
but the handler goes on: Pass 1 weights the genres of the top artists, the projection runs,
and rendering fails on the undefined least-popular track, so the error page is sent as well. -/
theorem empty_tracks_outcome (genreMap : JMap String GenreData)
    (fetchArtists : List String → Option (List Artist)) (artists : List Artist)
    (h : aligned genreMap = true) :
    callback genreMap fetchArtists [] artists
      = some [Response.sendFile "nodata.html", Response.sendFile "error.html"]
    ∧ (aggregate artists []).genreWeights = (pass1 artists).genreWeights
    ∧ ∀ g, JMap.has (aggregate artists []).genreWeights g = decide (g ∈ taggedGenres artists) := by
  refine ⟨callback_no_tracks genreMap fetchArtists artists h, rfl, fun g => ?_⟩
  show JMap.has (pass1 artists).genreWeights g = _
  unfold pass1
  rw [has_artistLoop]
  simp [State.init, JMap.has, JMap.get]

theorem empty_tracks_outcome_witness :
    aligned sampleTable = true
    ∧ callback sampleTable (fun _ => none) [] twoArtists
      = some [Response.sendFile "nodata.html", Response.sendFile "error.html"]
    ∧ (aggregate twoArtists []).genreWeights = (pass1 twoArtists).genreWeights
    ∧ ∀ g, JMap.has (aggregate twoArtists []).genreWeights g
        = decide (g ∈ taggedGenres twoArtists) :=
  ⟨by decide, empty_tracks_outcome sampleTable (fun _ => none) twoArtists (by decide)⟩

/-! ## The tracked maximum against the weights -/

/-- C19: the tracked `max` can be below a genre weight.  With the top artist tagged "pop",
one track by the residual artist "zz" and a reply that gives "zz" no genre, the final map is
`{"pop": 1}` while `max` is still 0: Pass 1 wrote the weight without updating `max`. -/
theorem max_below_weight :
    residualKeys (aggregate [sampleArtist] [zzTrack]).artistWeights
        [[untaggedArtist "zz" "Z" 3 []]] = true
    ∧ resolverFold (aggregate [sampleArtist] [zzTrack]) [[untaggedArtist "zz" "Z" 3 []]]
        = some (aggregate [sampleArtist] [zzTrack])
    ∧ (aggregate [sampleArtist] [zzTrack]).genreWeights = [("pop", 1)]
    ∧ (aggregate [sampleArtist] [zzTrack]).max = 0
    ∧ ¬ (∀ e ∈ (aggregate [sampleArtist] [zzTrack]).genreWeights,
          e.2 ≤ (aggregate [sampleArtist] [zzTrack]).max) := by
  have h10 : (10 : ℚ) < 101 := by norm_num
  have h50 : (50 : ℚ) < 101 := by norm_num
  have hgw : (aggregate [sampleArtist] [zzTrack]).genreWeights = [("pop", 1)] := by
    unfold aggregate sampleArtist
    rw [scenario_pass1]
    simp [h10, h50, pass2, trackLoop, trackStep, trackArtistStep, addResidual, JMap.get,
      JMap.set, zzTrack, popTrack]
  have hmax : (aggregate [sampleArtist] [zzTrack]).max = 0 := by
    unfold aggregate sampleArtist
    rw [scenario_pass1]
    simp [h10, h50, pass2, trackLoop, trackStep, trackArtistStep, addResidual, JMap.get,
      JMap.set, zzTrack, popTrack]
  refine ⟨by decide, ?_, hgw, hmax, ?_⟩
  · simp [resolverFold, foldArr, foldArtist, untaggedArtist]
  · rw [hgw, hmax]
    simp

end Spoopify
